import Mathlib

/-! PIM compiler: instruction codec, IR generator and instruction encoder.

A shallow embedding of `include/instruction.hpp`, `include/ir.hpp`,
`include/compiler.hpp` and `src/compiler.cpp`.

Machine integers are natural numbers with explicit wrap-around:
`uint32_t` values are reduced modulo `2^32`, `size_t` values modulo `2^64`.
A `std::vector` is a `List`; `push_back` / `emplace_back` append at the end,
and a vector never holds more than its `max_size()` elements.
-/

namespace pim

/-! ## Machine words -/

/-- Reduction of a natural number to the range of `uint32_t`. -/
def u32 (n : Nat) : Nat := n % 2 ^ 32

/-- Reduction of a natural number to the range of a 64-bit `size_t`. -/
def usize (n : Nat) : Nat := n % 2 ^ 64

/-! ## instruction.hpp -/

/-- The scoped enumeration `Opcode : uint32_t`: a value of the underlying type.
Only the four named values are enumerators, but a cast can produce any value,
which is why `pack` masks it and `opcode_to_string` has a default case. -/
structure Opcode where
  val : Nat
deriving DecidableEq, Repr

namespace Opcode

def MEM_LOAD : Opcode := ⟨0⟩
def MEM_STORE : Opcode := ⟨1⟩
def COMPUTE_SETUP : Opcode := ⟨2⟩
def COMPUTE_EXEC : Opcode := ⟨3⟩

end Opcode

/-- The alias `InstructionWord = uint32_t`. The functions below write `Nat`
for it: an instruction word is a natural number below `2^32`. -/
abbrev InstructionWord := Nat

namespace instr_format

def OPCODE_SHIFT : Nat := 17
def OPCODE_MASK : Nat := 0x3

def CORE_PTR_SHIFT : Nat := 11
def CORE_PTR_MASK : Nat := 0x3F

def RD_FLAG_SHIFT : Nat := 10
def RD_FLAG_MASK : Nat := 0x1

def WR_FLAG_SHIFT : Nat := 9
def WR_FLAG_MASK : Nat := 0x1

def ROW_ADDR_SHIFT : Nat := 0
def ROW_ADDR_MASK : Nat := 0x1FF

/-- The function `pack`: every field is masked, shifted (in `uint32_t`
arithmetic) and or-ed into the instruction word, in the order of the source. -/
def pack (op : Opcode) (core_ptr : Nat) (rd wr : Bool) (row_addr : Nat) : Nat :=
  let instruction := 0
  let instruction := instruction ||| u32 ((u32 op.val &&& OPCODE_MASK) <<< OPCODE_SHIFT)
  let instruction := instruction ||| u32 ((core_ptr &&& CORE_PTR_MASK) <<< CORE_PTR_SHIFT)
  let instruction := instruction ||| u32 ((if rd then 1 else 0) <<< RD_FLAG_SHIFT)
  let instruction := instruction ||| u32 ((if wr then 1 else 0) <<< WR_FLAG_SHIFT)
  let instruction := instruction ||| u32 ((row_addr &&& ROW_ADDR_MASK) <<< ROW_ADDR_SHIFT)
  instruction

/-- The structure `UnpackedInstr`. -/
structure UnpackedInstr where
  opcode : Opcode
  core_ptr : Nat
  rd : Bool
  wr : Bool
  row_addr : Nat
deriving DecidableEq, Repr

/-- The function `unpack`: every field is shifted down and masked. -/
def unpack (instruction : Nat) : UnpackedInstr :=
  { opcode := ⟨(instruction >>> OPCODE_SHIFT) &&& OPCODE_MASK⟩
    core_ptr := (instruction >>> CORE_PTR_SHIFT) &&& CORE_PTR_MASK
    rd := ((instruction >>> RD_FLAG_SHIFT) &&& RD_FLAG_MASK) != 0
    wr := ((instruction >>> WR_FLAG_SHIFT) &&& WR_FLAG_MASK) != 0
    row_addr := (instruction >>> ROW_ADDR_SHIFT) &&& ROW_ADDR_MASK }

/-- The function `opcode_to_string`, a switch with a default case. -/
def opcode_to_string (op : Opcode) : String :=
  if op = Opcode.MEM_LOAD then "MEM_LOAD"
  else if op = Opcode.MEM_STORE then "MEM_STORE"
  else if op = Opcode.COMPUTE_SETUP then "COMPUTE_SETUP"
  else if op = Opcode.COMPUTE_EXEC then "COMPUTE_EXEC"
  else "UNKNOWN"

end instr_format

/-! ## ir.hpp -/

/-- The scoped enumeration `IROpType` (underlying type `int`): the five
enumerators are the values 0 to 4; the encoder has a default case for any
other value. -/
structure IROpType where
  val : Int
deriving DecidableEq, Repr

namespace IROpType

def RESET_ACC : IROpType := ⟨0⟩
def LOAD_A_ELEMENT : IROpType := ⟨1⟩
def LOAD_B_ELEMENT : IROpType := ⟨2⟩
def EXECUTE_MAC : IROpType := ⟨3⟩
def STORE_C_ELEMENT : IROpType := ⟨4⟩

end IROpType

/-- The structure `IROperation`: a tag, three `size_t` indices and the
`uint8_t` target buffer. The fields are natural numbers; the encoder wraps
what it computes from them. -/
structure IROperation where
  type : IROpType
  i : Nat
  j : Nat
  k : Nat
  target_buffer : Nat
deriving DecidableEq, Repr

namespace IROperation

/-- Constructor `explicit IROperation(IROpType t)`: all operands keep their
default value 0. -/
def ofType (t : IROpType) : IROperation :=
  { type := t, i := 0, j := 0, k := 0, target_buffer := 0 }

/-- Constructor `IROperation(IROpType t, size_t r_or_k, size_t k_or_c, uint8_t buf)`,
for loads: the indices are assigned according to the type. -/
def ofLoad (t : IROpType) (r_or_k k_or_c : Nat) (buf : Nat) : IROperation :=
  if t = IROpType.LOAD_A_ELEMENT then
    { type := t, i := r_or_k, j := 0, k := k_or_c, target_buffer := buf }
  else if t = IROpType.LOAD_B_ELEMENT then
    { type := t, i := 0, j := k_or_c, k := r_or_k, target_buffer := buf }
  else
    { type := t, i := 0, j := 0, k := 0, target_buffer := buf }

/-- Constructor `IROperation(IROpType t, size_t r_idx, size_t c_idx)`, for
reset and store. -/
def ofIndex (t : IROpType) (r_idx c_idx : Nat) : IROperation :=
  { type := t, i := r_idx, j := c_idx, k := 0, target_buffer := 0 }

end IROperation

/-! ## compiler.hpp -/

def MATRIX_A_BASE : Nat := 0
def MATRIX_B_BASE : Nat := 100
def MATRIX_C_BASE : Nat := 200

/-! ## compiler.cpp -/

/-- The body of the loop of `translate_ir_to_pim` for one IR operation: the
switch computes the five fields, then `pack` builds the word. The default case
(`continue`) is `none`: nothing is pushed. The address is computed in `size_t`
arithmetic and converted to `uint32_t` by the assignment to `row_addr_val`. -/
def translate_op (ir_op : IROperation) (cols_a cols_b : Nat) : Option Nat :=
  if ir_op.type = IROpType.RESET_ACC then
    some (instr_format.pack Opcode.COMPUTE_SETUP 0 false false 0)
  else if ir_op.type = IROpType.LOAD_A_ELEMENT then
    let core_ptr_val := u32 ir_op.target_buffer
    let row_addr_val := u32 (usize (usize (MATRIX_A_BASE + usize (ir_op.i * cols_a)) + ir_op.k))
    some (instr_format.pack Opcode.MEM_LOAD core_ptr_val true false row_addr_val)
  else if ir_op.type = IROpType.LOAD_B_ELEMENT then
    let core_ptr_val := u32 ir_op.target_buffer
    let row_addr_val := u32 (usize (usize (MATRIX_B_BASE + usize (ir_op.k * cols_b)) + ir_op.j))
    some (instr_format.pack Opcode.MEM_LOAD core_ptr_val true false row_addr_val)
  else if ir_op.type = IROpType.EXECUTE_MAC then
    some (instr_format.pack Opcode.COMPUTE_EXEC 0 false false 0)
  else if ir_op.type = IROpType.STORE_C_ELEMENT then
    let row_addr_val := u32 (usize (usize (MATRIX_C_BASE + usize (ir_op.i * cols_b)) + ir_op.j))
    some (instr_format.pack Opcode.MEM_STORE 0 false true row_addr_val)
  else
    none

/-- The function `Compiler::translate_ir_to_pim`: a loop over the IR sequence
that pushes one packed word per recognised operation and skips the others
(the warning written to the error stream is not modelled). The source does
not read `rows_a` either. Its `instructions.reserve(ir_code.size())` cannot
throw `std::length_error`: a vector of 40-byte operations has at most
`(2^63 - 1) / 40` entries, fewer than the `(2^63 - 1) / 4` words a vector of
instruction words may hold. -/
def translate_ir_to_pim (ir_code : List IROperation) (rows_a cols_a cols_b : Nat) :
    List Nat :=
  let _ := rows_a
  ir_code.foldl
    (fun instructions ir_op =>
      match translate_op ir_op cols_a cols_b with
      | some w => instructions ++ [w]
      | none => instructions)
    []

/-- The exceptions that leave `Compiler::compile_matrix_mult`: the
`std::runtime_error` thrown by its two guards, with its message; the
`std::length_error` thrown by `std::vector` when it is asked to hold more than
`max_size()` elements; the `std::bad_alloc` thrown when the free store cannot
supply a buffer. -/
inductive CompileError where
  | runtime_error (what : String)
  | length_error
  | bad_alloc
deriving DecidableEq, Repr

/-- The size of an `IROperation` in bytes: a 4-byte tag with 4 bytes of
padding, three 8-byte indices, the 1-byte buffer with 7 bytes of padding. -/
def IR_BYTES : Nat := 40

/-- The size of an `InstructionWord` in bytes. -/
def WORD_BYTES : Nat := 4

/-- The value of `max_size()` for `std::vector<IROperation>`: the largest
`ptrdiff_t`, `2^63 - 1`, divided by the 40 bytes of an `IROperation`. -/
def IR_MAX_SIZE : Nat := (2 ^ 63 - 1) / 40

/-- A free store that never gives out before `max_size()`: room for an IR of
`max_size()` entries and its instruction words. -/
def AMPLE_HEAP : Nat := (IR_BYTES + WORD_BYTES) * IR_MAX_SIZE

/-- The argument of `ir_code.reserve`, `rows_a * cols_b * (1 + cols_a * 3 + 1)`,
computed in `size_t` arithmetic. -/
def reserve_size (rows_a cols_a cols_b : Nat) : Nat :=
  usize (usize (rows_a * cols_b) * usize (usize (1 + usize (cols_a * 3)) + 1))

/-- The contents of `ir_code` after the triple nested loop of stage 1 of
`Compiler::compile_matrix_mult`, which fills it by `emplace_back`. What
`reserve` and the growth of the vector can throw is in
`compile_matrix_mult_on`. -/
def generate_ir (rows_a cols_a cols_b : Nat) : List IROperation :=
  (List.range rows_a).foldl
    (fun ir_code i =>
      (List.range cols_b).foldl
        (fun ir_code j =>
          let ir_code := ir_code ++ [IROperation.ofIndex IROpType.RESET_ACC i j]
          let ir_code :=
            (List.range cols_a).foldl
              (fun ir_code k =>
                let ir_code := ir_code ++ [IROperation.ofLoad IROpType.LOAD_A_ELEMENT i k 0]
                let ir_code := ir_code ++ [IROperation.ofLoad IROpType.LOAD_B_ELEMENT k j 1]
                ir_code ++ [IROperation.ofType IROpType.EXECUTE_MAC])
              ir_code
          ir_code ++ [IROperation.ofIndex IROpType.STORE_C_ELEMENT i j])
        ir_code)
    []

def MSG_EMPTY : String := "Input matrices cannot be empty."
def MSG_MISMATCH : String := "Matrix dimensions mismatch: cols_a must equal rows_b."

/-- The function `Compiler::compile_matrix_mult`, run while the free store can
still supply `heap` bytes. An exception is `Except.error`; `matrix[0]` is only
read once the matrix is known to be non-empty (the condition short-circuits).
After the two guards:
* `ir_code.reserve(n)` throws `std::length_error` when `n` exceeds
  `max_size()`, and otherwise `std::bad_alloc` when the free store cannot
  supply the `n` entries;
* the loop of stage 1 fills the vector; should it outgrow the reserved
  capacity (the wrap of `n` can let that through), the growth ends in
  `std::bad_alloc` when the free store gives out before `max_size()` entries,
  and in `std::length_error` at `max_size()` otherwise;
* `instructions.reserve` in stage 2 asks for one 4-byte word per entry of
  `ir_code`, fewer than the `max_size()` of that vector allows, while `ir_code`
  is still held, and throws `std::bad_alloc` when the free store cannot supply
  them; `push_back` then stays within the reserved capacity. -/
def compile_matrix_mult_on (heap : Nat) (matrix_a matrix_b : List (List Int)) :
    Except CompileError (List Nat) :=
  if matrix_a.isEmpty || matrix_b.isEmpty || (matrix_a.headD []).isEmpty
      || (matrix_b.headD []).isEmpty then
    Except.error (CompileError.runtime_error MSG_EMPTY)
  else
    let rows_a := matrix_a.length
    let cols_a := (matrix_a.headD []).length
    let rows_b := matrix_b.length
    let cols_b := (matrix_b.headD []).length
    if cols_a ≠ rows_b then
      Except.error (CompileError.runtime_error MSG_MISMATCH)
    else if IR_MAX_SIZE < reserve_size rows_a cols_a cols_b then
      Except.error CompileError.length_error
    else if heap < IR_BYTES * reserve_size rows_a cols_a cols_b then
      Except.error CompileError.bad_alloc
    else
      let ir_code := generate_ir rows_a cols_a cols_b
      if heap < IR_BYTES * min ir_code.length IR_MAX_SIZE then
        Except.error CompileError.bad_alloc
      else if IR_MAX_SIZE < ir_code.length then
        Except.error CompileError.length_error
      else if heap < IR_BYTES * reserve_size rows_a cols_a cols_b
          + WORD_BYTES * ir_code.length then
        Except.error CompileError.bad_alloc
      else
        Except.ok (translate_ir_to_pim ir_code rows_a cols_a cols_b)

/-- The function `Compiler::compile_matrix_mult` on a machine whose free store
never gives out: every request that `max_size()` allows is supplied, so that
`std::bad_alloc` does not occur. -/
def compile_matrix_mult (matrix_a matrix_b : List (List Int)) :
    Except CompileError (List Nat) :=
  compile_matrix_mult_on AMPLE_HEAP matrix_a matrix_b

/-- The sample input of `input_matrices.cpp`. -/
def sample_a : List (List Int) := [[1, 2, 3], [4, 5, 6], [7, 8, 9]]
def sample_b : List (List Int) := [[10, 11, 12], [13, 14, 15], [16, 17, 18]]

/-- The sample input of `input_10x10.cpp`; both matrices hold 1 to 100 row by row. -/
def sample10_a : List (List Int) :=
  [[1, 2, 3, 4, 5, 6, 7, 8, 9, 10], [11, 12, 13, 14, 15, 16, 17, 18, 19, 20],
   [21, 22, 23, 24, 25, 26, 27, 28, 29, 30], [31, 32, 33, 34, 35, 36, 37, 38, 39, 40],
   [41, 42, 43, 44, 45, 46, 47, 48, 49, 50], [51, 52, 53, 54, 55, 56, 57, 58, 59, 60],
   [61, 62, 63, 64, 65, 66, 67, 68, 69, 70], [71, 72, 73, 74, 75, 76, 77, 78, 79, 80],
   [81, 82, 83, 84, 85, 86, 87, 88, 89, 90], [91, 92, 93, 94, 95, 96, 97, 98, 99, 100]]
def sample10_b : List (List Int) :=
  [[1, 2, 3, 4, 5, 6, 7, 8, 9, 10], [11, 12, 13, 14, 15, 16, 17, 18, 19, 20],
   [21, 22, 23, 24, 25, 26, 27, 28, 29, 30], [31, 32, 33, 34, 35, 36, 37, 38, 39, 40],
   [41, 42, 43, 44, 45, 46, 47, 48, 49, 50], [51, 52, 53, 54, 55, 56, 57, 58, 59, 60],
   [61, 62, 63, 64, 65, 66, 67, 68, 69, 70], [71, 72, 73, 74, 75, 76, 77, 78, 79, 80],
   [81, 82, 83, 84, 85, 86, 87, 88, 89, 90], [91, 92, 93, 94, 95, 96, 97, 98, 99, 100]]


/-! ## The IR algorithm as the specification words it -/

/-- The three operations emitted for one inner index `k`: load `A[i][k]` into
buffer 0, load `B[k][j]` into buffer 1, multiply-accumulate. -/
def ir_triple (i j k : Nat) : List IROperation :=
  [IROperation.ofLoad IROpType.LOAD_A_ELEMENT i k 0,
   IROperation.ofLoad IROpType.LOAD_B_ELEMENT k j 1,
   IROperation.ofType IROpType.EXECUTE_MAC]

/-- The accumulation steps of one output element, for `k = 0 .. K-1`. -/
def ir_inner (i j K : Nat) : List IROperation :=
  (List.range K).flatMap (fun k => ir_triple i j k)

/-- The block of one output element `(i, j)`: reset, `K` triples, store. -/
def ir_block (i j K : Nat) : List IROperation :=
  [IROperation.ofIndex IROpType.RESET_ACC i j] ++ ir_inner i j K
    ++ [IROperation.ofIndex IROpType.STORE_C_ELEMENT i j]

/-- The specification of the IR generator: the blocks of all `(i, j)`,
`i = 0 .. R-1` outer and `j = 0 .. C-1` inner, concatenated. -/
def ir_spec (R K C : Nat) : List IROperation :=
  (List.range R).flatMap (fun i => (List.range C).flatMap (fun j => ir_block i j K))

/-! ## Shapes and accepted inputs -/

/-- Number of rows of a matrix, `matrix.size()`. -/
def rows (m : List (List Int)) : Nat := m.length

/-- Number of columns of a matrix as the compiler reads it, `matrix[0].size()`. -/
def cols (m : List (List Int)) : Nat := (m.headD []).length

/-- The input accepted by `compile_matrix_mult`: both matrices have a row, both
first rows have an element, and the inner dimensions agree. -/
def valid_input (matrix_a matrix_b : List (List Int)) : Prop :=
  0 < rows matrix_a ∧ 0 < rows matrix_b ∧ 0 < cols matrix_a ∧ 0 < cols matrix_b
    ∧ cols matrix_a = rows matrix_b

instance (matrix_a matrix_b : List (List Int)) : Decidable (valid_input matrix_a matrix_b) := by
  unfold valid_input; infer_instance

/-! ## Recognised operations -/

/-- An operation of one of the five kinds the encoder recognises. -/
def recognized (ir_op : IROperation) : Prop :=
  ir_op.type = IROpType.RESET_ACC ∨ ir_op.type = IROpType.LOAD_A_ELEMENT
    ∨ ir_op.type = IROpType.LOAD_B_ELEMENT ∨ ir_op.type = IROpType.EXECUTE_MAC
    ∨ ir_op.type = IROpType.STORE_C_ELEMENT

instance (ir_op : IROperation) : Decidable (recognized ir_op) := by
  unfold recognized; infer_instance

/-- The word the encoder emits for a recognised operation (0 stands for the
skipped ones, which emit nothing). -/
def encode (ir_op : IROperation) (cols_a cols_b : Nat) : Nat :=
  (translate_op ir_op cols_a cols_b).getD 0

/-! ## The accumulator lifecycle -/

/-- Number of resets in a sequence of operations. -/
def resets (l : List IROperation) : Nat :=
  l.countP (fun ir_op => decide (ir_op.type = IROpType.RESET_ACC))

/-- Number of stores in a sequence of operations. -/
def stores (l : List IROperation) : Nat :=
  l.countP (fun ir_op => decide (ir_op.type = IROpType.STORE_C_ELEMENT))

/-- A load or an execute: an operation that works on the open accumulator. -/
def is_step (ir_op : IROperation) : Prop :=
  ir_op.type = IROpType.LOAD_A_ELEMENT ∨ ir_op.type = IROpType.LOAD_B_ELEMENT
    ∨ ir_op.type = IROpType.EXECUTE_MAC

/-- The lifecycle discipline of a sequence: as many resets as stores; in every
prefix the resets exceed the stores by 0 or 1; a load or execute stands where
the difference is 1; and after a reset the next reset-or-store is the store of
the same output element. -/
structure Lifecycle (l : List IROperation) : Prop where
  balanced : resets l = stores l
  within_one : ∀ n : Nat,
    stores (l.take n) ≤ resets (l.take n) ∧ resets (l.take n) ≤ stores (l.take n) + 1
  step_open : ∀ (n : Nat) (ir_op : IROperation), l[n]? = some ir_op → is_step ir_op →
    resets (l.take n) = stores (l.take n) + 1
  store_after : ∀ (n : Nat) (ir_op : IROperation), l[n]? = some ir_op →
    ir_op.type = IROpType.RESET_ACC →
      ∃ m : Nat, n < m
        ∧ l[m]? = some (IROperation.ofIndex IROpType.STORE_C_ELEMENT ir_op.i ir_op.j)
        ∧ ∀ t : Nat, n < t → t < m → ∀ ir_op' : IROperation, l[t]? = some ir_op' →
            is_step ir_op'

/-! ## The concrete scenario of the specification -/

/-- The 2×2 matrix A of the concrete scenario. -/
def scenario_a : List (List Int) := [[1, 2], [3, 4]]

/-- The 2×2 matrix B of the concrete scenario. -/
def scenario_b : List (List Int) := [[5, 6], [7, 8]]

/-! ## Addresses assigned by the encoder -/

/-- The row address decoded from the word the encoder emits for an operation
(`none` when the operation is skipped). -/
def address_of (ir_op : IROperation) (cols_a cols_b : Nat) : Option Nat :=
  (translate_op ir_op cols_a cols_b).map (fun w => (instr_format.unpack w).row_addr)

/-- A 101×1 matrix: one more element than the 100 addresses below the base of B. -/
def tall_a : List (List Int) := List.replicate 101 [7]

/-- A 1×1 matrix. -/
def tall_b : List (List Int) := [[5]]

/-! ## Counting operations -/

/-- Number of loads of an element of A in a sequence of operations. -/
def loads_a (l : List IROperation) : Nat :=
  l.countP (fun ir_op => decide (ir_op.type = IROpType.LOAD_A_ELEMENT))

/-- Number of loads of an element of B in a sequence of operations. -/
def loads_b (l : List IROperation) : Nat :=
  l.countP (fun ir_op => decide (ir_op.type = IROpType.LOAD_B_ELEMENT))

/-- Number of multiply-accumulate operations in a sequence of operations. -/
def executes (l : List IROperation) : Nat :=
  l.countP (fun ir_op => decide (ir_op.type = IROpType.EXECUTE_MAC))

/-- Number of resets of the output element `(i, j)` in a sequence of operations. -/
def resets_at (i j : Nat) (l : List IROperation) : Nat :=
  l.countP (fun ir_op =>
    decide (ir_op.type = IROpType.RESET_ACC ∧ ir_op.i = i ∧ ir_op.j = j))

/-- Number of stores of the output element `(i, j)` in a sequence of operations. -/
def stores_at (i j : Nat) (l : List IROperation) : Nat :=
  l.countP (fun ir_op =>
    decide (ir_op.type = IROpType.STORE_C_ELEMENT ∧ ir_op.i = i ∧ ir_op.j = j))

/-! ## Store words of an instruction sequence -/

/-- Whether an instruction word decodes to a `MEM_STORE`. -/
def is_store_word (w : Nat) : Bool :=
  decide ((instr_format.unpack w).opcode = Opcode.MEM_STORE)

/-- The row addresses of the `MEM_STORE` words of a sequence, in emission order. -/
def store_addrs (ws : List Nat) : List Nat :=
  (ws.filter is_store_word).map (fun w => (instr_format.unpack w).row_addr)

/-- The row address of an instruction word when it is a `MEM_STORE`, nothing
otherwise. -/
def store_addr_opt (w : Nat) : Option Nat :=
  if is_store_word w then some (instr_format.unpack w).row_addr else none

/-! ## An input whose IR exceeds the capacity of a vector -/

/-- A ragged matrix with 10^6 rows: the first row holds 10^6 zeros and the
other rows are empty. It is read as a 10^6 × 10^6 matrix. -/
def ragged_huge : List (List Int) :=
  List.replicate 1000000 0 :: List.replicate 999999 []

/-- A 10^6 × 1 matrix. -/
def column_large : List (List Int) := List.replicate 1000000 [1]

/-- A 1 × 10^6 matrix. -/
def row_large : List (List Int) := [List.replicate 1000000 1]

/-! ## Codec arithmetic -/

namespace instr_format

theorem u32_of_lt {n : Nat} (h : n < 2 ^ 32) : u32 n = n := Nat.mod_eq_of_lt h

theorem and_mask_3 (x : Nat) : x &&& 3 = x % 4 := Nat.and_pow_two_sub_one_eq_mod x 2

theorem and_mask_63 (x : Nat) : x &&& 63 = x % 64 := Nat.and_pow_two_sub_one_eq_mod x 6

theorem and_mask_1 (x : Nat) : x &&& 1 = x % 2 := Nat.and_pow_two_sub_one_eq_mod x 1

theorem and_mask_511 (x : Nat) : x &&& 511 = x % 512 := Nat.and_pow_two_sub_one_eq_mod x 9

/-- Or-ing a multiple of `2^i` with a value below `2^i` adds them. -/
theorem or_eq_add (i a b : Nat) (hb : b < 2 ^ i) : a * 2 ^ i ||| b = a * 2 ^ i + b := by
  rw [Nat.mul_comm a (2 ^ i)]
  exact (Nat.mul_add_lt_is_or hb a).symm

theorem ite_flag (b : Bool) : (if b then 1 else 0 : Nat) = b.toNat := by
  cases b <;> rfl

theorem flag_lt (b : Bool) : b.toNat < 2 := by cases b <;> decide

/-- The word built by `pack`, as a sum of the shifted fields. -/
theorem pack_eq_sum (op : Opcode) (core_ptr : Nat) (rd wr : Bool) (row_addr : Nat) :
    pack op core_ptr rd wr row_addr
      = (op.val % 4) * 2 ^ 17 + (core_ptr % 64) * 2 ^ 11 + rd.toNat * 2 ^ 10 + wr.toNat * 2 ^ 9
        + row_addr % 512 := by
  have ho : op.val % 2 ^ 32 % 4 = op.val % 4 := Nat.mod_mod_of_dvd _ (by norm_num)
  have h1 : op.val % 4 < 4 := Nat.mod_lt _ (by norm_num)
  have h2 : core_ptr % 64 < 64 := Nat.mod_lt _ (by norm_num)
  have h3 := flag_lt rd
  have h4 := flag_lt wr
  have h5 : row_addr % 512 < 512 := Nat.mod_lt _ (by norm_num)
  have e1 : u32 ((u32 op.val &&& OPCODE_MASK) <<< OPCODE_SHIFT) = (op.val % 4) * 2 ^ 17 := by
    simp only [OPCODE_MASK, OPCODE_SHIFT, and_mask_3, Nat.shiftLeft_eq]
    rw [show u32 op.val = op.val % 2 ^ 32 from rfl, ho]
    apply u32_of_lt; omega
  have e2 : u32 ((core_ptr &&& CORE_PTR_MASK) <<< CORE_PTR_SHIFT) = (core_ptr % 64) * 2 ^ 11 := by
    simp only [CORE_PTR_MASK, CORE_PTR_SHIFT, and_mask_63, Nat.shiftLeft_eq]
    apply u32_of_lt; omega
  have e3 : u32 ((if rd then 1 else 0) <<< RD_FLAG_SHIFT) = rd.toNat * 2 ^ 10 := by
    simp only [RD_FLAG_SHIFT, Nat.shiftLeft_eq]
    rw [ite_flag]
    apply u32_of_lt; omega
  have e4 : u32 ((if wr then 1 else 0) <<< WR_FLAG_SHIFT) = wr.toNat * 2 ^ 9 := by
    simp only [WR_FLAG_SHIFT, Nat.shiftLeft_eq]
    rw [ite_flag]
    apply u32_of_lt; omega
  have e5 : u32 ((row_addr &&& ROW_ADDR_MASK) <<< ROW_ADDR_SHIFT) = row_addr % 512 := by
    simp only [ROW_ADDR_MASK, ROW_ADDR_SHIFT, and_mask_511, Nat.shiftLeft_eq, pow_zero, mul_one]
    apply u32_of_lt; omega
  have s4 : wr.toNat * 2 ^ 9 ||| row_addr % 512 = wr.toNat * 2 ^ 9 + row_addr % 512 :=
    or_eq_add 9 _ _ (by omega)
  have s3 : rd.toNat * 2 ^ 10 ||| (wr.toNat * 2 ^ 9 + row_addr % 512)
      = rd.toNat * 2 ^ 10 + (wr.toNat * 2 ^ 9 + row_addr % 512) :=
    or_eq_add 10 _ _ (by omega)
  have s2 : (core_ptr % 64) * 2 ^ 11 ||| (rd.toNat * 2 ^ 10 + (wr.toNat * 2 ^ 9 + row_addr % 512))
      = (core_ptr % 64) * 2 ^ 11 + (rd.toNat * 2 ^ 10 + (wr.toNat * 2 ^ 9 + row_addr % 512)) :=
    or_eq_add 11 _ _ (by omega)
  have s1 : (op.val % 4) * 2 ^ 17
        ||| ((core_ptr % 64) * 2 ^ 11 + (rd.toNat * 2 ^ 10 + (wr.toNat * 2 ^ 9 + row_addr % 512)))
      = (op.val % 4) * 2 ^ 17
        + ((core_ptr % 64) * 2 ^ 11 + (rd.toNat * 2 ^ 10 + (wr.toNat * 2 ^ 9 + row_addr % 512))) :=
    or_eq_add 17 _ _ (by omega)
  unfold pack
  simp only [e1, e2, e3, e4, e5, Nat.zero_or, Nat.lor_assoc]
  rw [s4, s3, s2, s1]
  omega

/-- The fields read by `unpack`, as quotients and remainders. -/
theorem unpack_eq (w : Nat) :
    unpack w =
      { opcode := ⟨w / 2 ^ 17 % 4⟩
        core_ptr := w / 2 ^ 11 % 64
        rd := w / 2 ^ 10 % 2 != 0
        wr := w / 2 ^ 9 % 2 != 0
        row_addr := w % 512 } := by
  simp only [unpack, OPCODE_SHIFT, OPCODE_MASK, CORE_PTR_SHIFT, CORE_PTR_MASK, RD_FLAG_SHIFT,
    RD_FLAG_MASK, WR_FLAG_SHIFT, WR_FLAG_MASK, ROW_ADDR_SHIFT, ROW_ADDR_MASK,
    Nat.shiftRight_eq_div_pow, and_mask_3, and_mask_63, and_mask_1, and_mask_511, pow_zero,
    Nat.div_one]

theorem toNat_bne_zero (b : Bool) : (b.toNat != 0) = b := by cases b <;> rfl

/-- Decoding a packed word returns the masked fields (any opcode value, any
field values). -/
theorem unpack_pack_masked (op : Opcode) (core_ptr : Nat) (rd wr : Bool) (row_addr : Nat) :
    unpack (pack op core_ptr rd wr row_addr)
      = { opcode := ⟨op.val % 4⟩, core_ptr := core_ptr % 64, rd := rd, wr := wr,
          row_addr := row_addr % 512 } := by
  have h3 := flag_lt rd
  have h4 := flag_lt wr
  rw [unpack_eq, pack_eq_sum]
  have a1 : (op.val % 4 * 2 ^ 17 + core_ptr % 64 * 2 ^ 11 + rd.toNat * 2 ^ 10 + wr.toNat * 2 ^ 9
      + row_addr % 512) / 2 ^ 17 % 4 = op.val % 4 := by omega
  have a2 : (op.val % 4 * 2 ^ 17 + core_ptr % 64 * 2 ^ 11 + rd.toNat * 2 ^ 10 + wr.toNat * 2 ^ 9
      + row_addr % 512) / 2 ^ 11 % 64 = core_ptr % 64 := by omega
  have a3 : (op.val % 4 * 2 ^ 17 + core_ptr % 64 * 2 ^ 11 + rd.toNat * 2 ^ 10 + wr.toNat * 2 ^ 9
      + row_addr % 512) / 2 ^ 10 % 2 = rd.toNat := by omega
  have a4 : (op.val % 4 * 2 ^ 17 + core_ptr % 64 * 2 ^ 11 + rd.toNat * 2 ^ 10 + wr.toNat * 2 ^ 9
      + row_addr % 512) / 2 ^ 9 % 2 = wr.toNat := by omega
  have a5 : (op.val % 4 * 2 ^ 17 + core_ptr % 64 * 2 ^ 11 + rd.toNat * 2 ^ 10 + wr.toNat * 2 ^ 9
      + row_addr % 512) % 512 = row_addr % 512 := by omega
  rw [a1, a2, a3, a4, a5, toNat_bne_zero, toNat_bne_zero]

/-- The word built by `pack` is below `2^19`. -/
theorem pack_lt (op : Opcode) (core_ptr : Nat) (rd wr : Bool) (row_addr : Nat) :
    pack op core_ptr rd wr row_addr < 2 ^ 19 := by
  have h3 := flag_lt rd
  have h4 := flag_lt wr
  rw [pack_eq_sum]
  omega

/-- Encoding the decoded fields of a word keeps its low 19 bits. -/
theorem pack_unpack_mod (w : Nat) :
    pack (unpack w).opcode (unpack w).core_ptr (unpack w).rd (unpack w).wr (unpack w).row_addr
      = w % 2 ^ 19 := by
  rw [pack_eq_sum, unpack_eq]
  have b3 : (w / 2 ^ 10 % 2 != 0).toNat = w / 2 ^ 10 % 2 := by
    rcases Nat.mod_two_eq_zero_or_one (w / 2 ^ 10) with h | h <;> rw [h] <;> rfl
  have b4 : (w / 2 ^ 9 % 2 != 0).toNat = w / 2 ^ 9 % 2 := by
    rcases Nat.mod_two_eq_zero_or_one (w / 2 ^ 9) with h | h <;> rw [h] <;> rfl
  simp only [b3, b4]
  omega

end instr_format

/-! ## Loops as list operations -/

/-- A loop that appends `f x` for every `x` builds the concatenation. -/
theorem foldl_append_eq_flatMap {α β : Type} (f : α → List β) (l : List α) (init : List β) :
    l.foldl (fun acc x => acc ++ f x) init = init ++ l.flatMap f := by
  induction l generalizing init with
  | nil => simp
  | cons x xs ih => simp [List.foldl_cons, ih, List.append_assoc]

/-- The loop of `translate_ir_to_pim` keeps the recognised operations, in order. -/
theorem translate_loop_eq (cols_a cols_b : Nat) (l : List IROperation) (init : List Nat) :
    l.foldl
        (fun instructions ir_op =>
          match translate_op ir_op cols_a cols_b with
          | some w => instructions ++ [w]
          | none => instructions)
        init
      = init ++ l.filterMap (fun ir_op => translate_op ir_op cols_a cols_b) := by
  induction l generalizing init with
  | nil => simp
  | cons x xs ih =>
    rw [List.foldl_cons, ih, List.filterMap_cons]
    cases translate_op x cols_a cols_b <;> simp

theorem translate_eq_filterMap (ir_code : List IROperation) (rows_a cols_a cols_b : Nat) :
    translate_ir_to_pim ir_code rows_a cols_a cols_b
      = ir_code.filterMap (fun ir_op => translate_op ir_op cols_a cols_b) := by
  unfold translate_ir_to_pim
  rw [translate_loop_eq]
  simp

/-- The innermost loop appends the triples of `k = 0 .. cols_a - 1`. -/
theorem inner_loop_eq (i j cols_a : Nat) (init : List IROperation) :
    (List.range cols_a).foldl
        (fun ir_code k =>
          let ir_code := ir_code ++ [IROperation.ofLoad IROpType.LOAD_A_ELEMENT i k 0]
          let ir_code := ir_code ++ [IROperation.ofLoad IROpType.LOAD_B_ELEMENT k j 1]
          ir_code ++ [IROperation.ofType IROpType.EXECUTE_MAC])
        init
      = init ++ ir_inner i j cols_a := by
  have h := foldl_append_eq_flatMap (fun k => ir_triple i j k) (List.range cols_a) init
  simp only [ir_triple] at h
  simp only [ir_inner, ir_triple, List.append_assoc, List.singleton_append]
  exact h

/-- The loop over `j` appends the blocks of `j = 0 .. cols_b - 1`. -/
theorem middle_loop_eq (i cols_a cols_b : Nat) (init : List IROperation) :
    (List.range cols_b).foldl
        (fun ir_code j =>
          let ir_code := ir_code ++ [IROperation.ofIndex IROpType.RESET_ACC i j]
          let ir_code :=
            (List.range cols_a).foldl
              (fun ir_code k =>
                let ir_code := ir_code ++ [IROperation.ofLoad IROpType.LOAD_A_ELEMENT i k 0]
                let ir_code := ir_code ++ [IROperation.ofLoad IROpType.LOAD_B_ELEMENT k j 1]
                ir_code ++ [IROperation.ofType IROpType.EXECUTE_MAC])
              ir_code
          ir_code ++ [IROperation.ofIndex IROpType.STORE_C_ELEMENT i j])
        init
      = init ++ (List.range cols_b).flatMap (fun j => ir_block i j cols_a) := by
  have h := foldl_append_eq_flatMap (fun j => ir_block i j cols_a) (List.range cols_b) init
  rw [← h]
  congr 1
  funext ir_code j
  have hk := inner_loop_eq i j cols_a (ir_code ++ [IROperation.ofIndex IROpType.RESET_ACC i j])
  simp only [ir_block, List.append_assoc] at hk ⊢
  rw [hk]
  simp only [List.append_assoc]

/-- Stage 1 of the compiler builds exactly the sequence of the specification. -/
theorem generate_ir_eq_spec (R K C : Nat) : generate_ir R K C = ir_spec R K C := by
  unfold generate_ir ir_spec
  have h := foldl_append_eq_flatMap
    (fun i => (List.range C).flatMap (fun j => ir_block i j K)) (List.range R) []
  rw [List.nil_append] at h
  rw [← h]
  congr 1
  funext ir_code i
  exact middle_loop_eq i K C ir_code

/-! ## Lengths and positions in a concatenation of equal-length blocks -/

theorem length_flatMap_range {α : Type} (f : Nat → List α) (L : Nat)
    (hlen : ∀ x, (f x).length = L) (n : Nat) :
    ((List.range n).flatMap f).length = n * L := by
  induction n with
  | zero => simp
  | succ n ih =>
    rw [List.range_succ, List.flatMap_append, List.length_append, ih, List.flatMap_singleton,
      hlen, Nat.succ_mul]

theorem mul_add_lt_mul {i n L r : Nat} (hi : i < n) (hr : r < L) : i * L + r < n * L := by
  have h1 : (i + 1) * L ≤ n * L := Nat.mul_le_mul_right L hi
  rw [Nat.succ_mul] at h1
  omega

/-- Entry `r` of block `i` sits at position `i * L + r` of the concatenation. -/
theorem getElem?_flatMap_range {α : Type} (f : Nat → List α) (L : Nat)
    (hlen : ∀ x, (f x).length = L) (n i r : Nat) (hi : i < n) (hr : r < L) :
    ((List.range n).flatMap f)[i * L + r]? = (f i)[r]? := by
  induction n with
  | zero => omega
  | succ n ih =>
    rw [List.range_succ, List.flatMap_append, List.flatMap_singleton]
    have hl := length_flatMap_range f L hlen n
    rcases Nat.lt_succ_iff_lt_or_eq.mp hi with h | h
    · have hlt : i * L + r < ((List.range n).flatMap f).length := by
        rw [hl]; exact mul_add_lt_mul h hr
      rw [List.getElem?_append_left hlt]
      exact ih h
    · subst h
      have hge : ((List.range i).flatMap f).length ≤ i * L + r := by rw [hl]; omega
      rw [List.getElem?_append_right hge, hl]
      congr 1
      omega

theorem length_ir_triple (i j k : Nat) : (ir_triple i j k).length = 3 := rfl

theorem length_ir_inner (i j K : Nat) : (ir_inner i j K).length = K * 3 :=
  length_flatMap_range _ 3 (fun k => length_ir_triple i j k) K

theorem length_ir_block (i j K : Nat) : (ir_block i j K).length = 3 * K + 2 := by
  simp only [ir_block, List.length_append, length_ir_inner, List.length_singleton]
  omega

theorem length_ir_row (i K C : Nat) :
    ((List.range C).flatMap (fun j => ir_block i j K)).length = C * (3 * K + 2) :=
  length_flatMap_range _ _ (fun j => length_ir_block i j K) C

theorem length_ir_spec (R K C : Nat) : (ir_spec R K C).length = R * C * (3 * K + 2) := by
  unfold ir_spec
  rw [length_flatMap_range _ _ (fun i => length_ir_row i K C) R, Nat.mul_assoc]

/-- Entry `r` of the block of `(i, j)` sits at position `(i * C + j) * (3K+2) + r`. -/
theorem getElem?_ir_spec (R K C i j r : Nat) (hi : i < R) (hj : j < C) (hr : r < 3 * K + 2) :
    (ir_spec R K C)[(i * C + j) * (3 * K + 2) + r]? = (ir_block i j K)[r]? := by
  unfold ir_spec
  have e : (i * C + j) * (3 * K + 2) + r = i * (C * (3 * K + 2)) + (j * (3 * K + 2) + r) := by
    rw [Nat.add_mul, Nat.mul_assoc, Nat.add_assoc]
  rw [e, getElem?_flatMap_range _ _ (fun i => length_ir_row i K C) R i _ hi
    (mul_add_lt_mul hj hr)]
  exact getElem?_flatMap_range _ _ (fun j => length_ir_block i j K) C j r hj hr

theorem getElem?_ir_block_reset (i j K : Nat) :
    (ir_block i j K)[0]? = some (IROperation.ofIndex IROpType.RESET_ACC i j) := by
  simp [ir_block]

theorem getElem?_ir_block_inner (i j K r : Nat) (hr : r < K * 3) :
    (ir_block i j K)[1 + r]? = (ir_inner i j K)[r]? := by
  unfold ir_block
  rw [List.append_assoc, List.singleton_append, Nat.add_comm, List.getElem?_cons_succ,
    List.getElem?_append_left (by rw [length_ir_inner]; exact hr)]

theorem getElem?_ir_block_store (i j K : Nat) :
    (ir_block i j K)[3 * K + 1]? = some (IROperation.ofIndex IROpType.STORE_C_ELEMENT i j) := by
  unfold ir_block
  have hl : ([IROperation.ofIndex IROpType.RESET_ACC i j] ++ ir_inner i j K).length = 3 * K + 1 := by
    rw [List.length_append, length_ir_inner, List.length_singleton]; omega
  rw [List.getElem?_append_right (by rw [hl]), hl, Nat.sub_self]
  rfl

theorem getElem?_ir_inner (i j K k t : Nat) (hk : k < K) (ht : t < 3) :
    (ir_inner i j K)[k * 3 + t]? = (ir_triple i j k)[t]? :=
  getElem?_flatMap_range _ 3 (fun k => length_ir_triple i j k) K k t hk ht

/-! ## The encoder on each kind of operation -/

theorem translate_op_reset (ir_op : IROperation) (cols_a cols_b : Nat)
    (h : ir_op.type = IROpType.RESET_ACC) :
    translate_op ir_op cols_a cols_b
      = some (instr_format.pack Opcode.COMPUTE_SETUP 0 false false 0) := by
  rw [translate_op, if_pos h]

theorem translate_op_load_a (ir_op : IROperation) (cols_a cols_b : Nat)
    (h : ir_op.type = IROpType.LOAD_A_ELEMENT) :
    translate_op ir_op cols_a cols_b
      = some (instr_format.pack Opcode.MEM_LOAD (u32 ir_op.target_buffer) true false
          (u32 (usize (usize (MATRIX_A_BASE + usize (ir_op.i * cols_a)) + ir_op.k)))) := by
  rw [translate_op, h, if_neg (by decide), if_pos rfl]

theorem translate_op_load_b (ir_op : IROperation) (cols_a cols_b : Nat)
    (h : ir_op.type = IROpType.LOAD_B_ELEMENT) :
    translate_op ir_op cols_a cols_b
      = some (instr_format.pack Opcode.MEM_LOAD (u32 ir_op.target_buffer) true false
          (u32 (usize (usize (MATRIX_B_BASE + usize (ir_op.k * cols_b)) + ir_op.j)))) := by
  rw [translate_op, h, if_neg (by decide), if_neg (by decide), if_pos rfl]

theorem translate_op_exec (ir_op : IROperation) (cols_a cols_b : Nat)
    (h : ir_op.type = IROpType.EXECUTE_MAC) :
    translate_op ir_op cols_a cols_b
      = some (instr_format.pack Opcode.COMPUTE_EXEC 0 false false 0) := by
  rw [translate_op, h, if_neg (by decide), if_neg (by decide), if_neg (by decide), if_pos rfl]

theorem translate_op_store (ir_op : IROperation) (cols_a cols_b : Nat)
    (h : ir_op.type = IROpType.STORE_C_ELEMENT) :
    translate_op ir_op cols_a cols_b
      = some (instr_format.pack Opcode.MEM_STORE 0 false true
          (u32 (usize (usize (MATRIX_C_BASE + usize (ir_op.i * cols_b)) + ir_op.j)))) := by
  rw [translate_op, h, if_neg (by decide), if_neg (by decide), if_neg (by decide),
    if_neg (by decide), if_pos rfl]

/-- The wrap of the address to `size_t` and to `uint32_t` is invisible modulo 512. -/
theorem addr_mod (base x y z : Nat) :
    u32 (usize (usize (base + usize (x * y)) + z)) % 512 = (base + x * y + z) % 512 := by
  unfold u32 usize
  omega

theorem u32_mod_64 (n : Nat) : u32 n % 64 = n % 64 := by
  unfold u32
  omega

theorem translate_singleton (ir_op : IROperation) (rows_a cols_a cols_b w : Nat)
    (h : translate_op ir_op cols_a cols_b = some w) :
    translate_ir_to_pim [ir_op] rows_a cols_a cols_b = [w] := by
  rw [translate_eq_filterMap, List.filterMap_cons, h, List.filterMap_nil]

/-! ## The result of `compile_matrix_mult_on` -/

/-- Whether the first guard of `compile_matrix_mult_on` fires. -/
theorem guard_empty_iff (matrix_a matrix_b : List (List Int)) :
    (matrix_a.isEmpty || matrix_b.isEmpty || (matrix_a.headD []).isEmpty
        || (matrix_b.headD []).isEmpty) = true
      ↔ (rows matrix_a = 0 ∨ rows matrix_b = 0 ∨ cols matrix_a = 0 ∨ cols matrix_b = 0) := by
  simp only [Bool.or_eq_true, List.isEmpty_iff, rows, cols, List.length_eq_zero, or_assoc]

theorem valid_input_iff (matrix_a matrix_b : List (List Int)) :
    valid_input matrix_a matrix_b
      ↔ ¬ (rows matrix_a = 0 ∨ rows matrix_b = 0 ∨ cols matrix_a = 0 ∨ cols matrix_b = 0
          ∨ cols matrix_a ≠ rows matrix_b) := by
  unfold valid_input
  omega

theorem IR_MAX_SIZE_lt : IR_MAX_SIZE < 2 ^ 64 := by decide

/-- Without overflow the argument of `reserve` is the length of the IR. -/
theorem reserve_size_eq (R K C : Nat) (hRC : 0 < R * C)
    (hN : R * C * (3 * K + 2) < 2 ^ 64) :
    reserve_size R K C = R * C * (3 * K + 2) := by
  have h1 : 3 * K + 2 ≤ R * C * (3 * K + 2) := Nat.le_mul_of_pos_left _ hRC
  have h2 : R * C ≤ R * C * (3 * K + 2) := Nat.le_mul_of_pos_right _ (by omega)
  have e1 : usize (K * 3) = K * 3 := Nat.mod_eq_of_lt (by omega)
  have e2 : usize (1 + K * 3) = 1 + K * 3 := Nat.mod_eq_of_lt (by omega)
  have e3 : usize (1 + K * 3 + 1) = 3 * K + 2 := by
    rw [show 1 + K * 3 + 1 = 3 * K + 2 by omega]
    exact Nat.mod_eq_of_lt (by omega)
  have e4 : usize (R * C) = R * C := Nat.mod_eq_of_lt (by omega)
  unfold reserve_size
  rw [e1, e2, e3, e4]
  exact Nat.mod_eq_of_lt hN

theorem length_generate_ir (R K C : Nat) :
    (generate_ir R K C).length = R * C * (3 * K + 2) := by
  rw [generate_ir_eq_spec, length_ir_spec]

/-- Past the two guards, `compile_matrix_mult_on` is decided by the checks of
the two vectors against `max_size()` and the free store. -/
theorem compile_on_of_valid_step (heap : Nat) (matrix_a matrix_b : List (List Int))
    (h : valid_input matrix_a matrix_b) :
    compile_matrix_mult_on heap matrix_a matrix_b
      = if IR_MAX_SIZE < reserve_size (rows matrix_a) (cols matrix_a) (cols matrix_b) then
          Except.error CompileError.length_error
        else if heap
            < IR_BYTES * reserve_size (rows matrix_a) (cols matrix_a) (cols matrix_b) then
          Except.error CompileError.bad_alloc
        else if heap
            < IR_BYTES * min (rows matrix_a * cols matrix_b * (3 * cols matrix_a + 2))
                IR_MAX_SIZE then
          Except.error CompileError.bad_alloc
        else if IR_MAX_SIZE < rows matrix_a * cols matrix_b * (3 * cols matrix_a + 2) then
          Except.error CompileError.length_error
        else if heap
            < IR_BYTES * reserve_size (rows matrix_a) (cols matrix_a) (cols matrix_b)
              + WORD_BYTES * (rows matrix_a * cols matrix_b * (3 * cols matrix_a + 2)) then
          Except.error CompileError.bad_alloc
        else
          Except.ok (translate_ir_to_pim
            (generate_ir (rows matrix_a) (cols matrix_a) (cols matrix_b))
            (rows matrix_a) (cols matrix_a) (cols matrix_b)) := by
  obtain ⟨h1, h2, h3, h4, h5⟩ := h
  have hg : ¬ ((matrix_a.isEmpty || matrix_b.isEmpty || (matrix_a.headD []).isEmpty
      || (matrix_b.headD []).isEmpty) = true) := by
    rw [guard_empty_iff]; omega
  unfold compile_matrix_mult_on
  rw [if_neg hg]
  have h5' : ¬ ((matrix_a.headD []).length ≠ matrix_b.length) := fun hne => hne h5
  simp only [h5', if_false]
  rw [← length_generate_ir (rows matrix_a) (cols matrix_a) (cols matrix_b)]
  rfl

theorem compile_on_of_valid (heap : Nat) (matrix_a matrix_b : List (List Int))
    (h : valid_input matrix_a matrix_b)
    (hN : rows matrix_a * cols matrix_b * (3 * cols matrix_a + 2) ≤ IR_MAX_SIZE)
    (hheap : (IR_BYTES + WORD_BYTES) * (rows matrix_a * cols matrix_b * (3 * cols matrix_a + 2))
      ≤ heap) :
    compile_matrix_mult_on heap matrix_a matrix_b
      = Except.ok (translate_ir_to_pim
          (generate_ir (rows matrix_a) (cols matrix_a) (cols matrix_b))
          (rows matrix_a) (cols matrix_a) (cols matrix_b)) := by
  have hRC : 0 < rows matrix_a * cols matrix_b := Nat.mul_pos h.1 h.2.2.2.1
  have hlt := IR_MAX_SIZE_lt
  have hmin : min (rows matrix_a * cols matrix_b * (3 * cols matrix_a + 2)) IR_MAX_SIZE
      = rows matrix_a * cols matrix_b * (3 * cols matrix_a + 2) := Nat.min_eq_left hN
  simp only [IR_BYTES, WORD_BYTES] at hheap
  rw [compile_on_of_valid_step _ _ _ h, reserve_size_eq _ _ _ hRC (by omega), hmin,
    if_neg (by omega), if_neg (by simp only [IR_BYTES]; omega),
    if_neg (by simp only [IR_BYTES]; omega), if_neg (by omega),
    if_neg (by simp only [IR_BYTES, WORD_BYTES]; omega)]

/-- A valid input whose IR fits a vector but not the free store ends in
`std::bad_alloc`. -/
theorem compile_on_of_low_heap (heap : Nat) (matrix_a matrix_b : List (List Int))
    (h : valid_input matrix_a matrix_b)
    (hN : rows matrix_a * cols matrix_b * (3 * cols matrix_a + 2) ≤ IR_MAX_SIZE)
    (hheap : heap
      < (IR_BYTES + WORD_BYTES) * (rows matrix_a * cols matrix_b * (3 * cols matrix_a + 2))) :
    compile_matrix_mult_on heap matrix_a matrix_b = Except.error CompileError.bad_alloc := by
  have hRC : 0 < rows matrix_a * cols matrix_b := Nat.mul_pos h.1 h.2.2.2.1
  have hlt := IR_MAX_SIZE_lt
  have hmin : min (rows matrix_a * cols matrix_b * (3 * cols matrix_a + 2)) IR_MAX_SIZE
      = rows matrix_a * cols matrix_b * (3 * cols matrix_a + 2) := Nat.min_eq_left hN
  simp only [IR_BYTES, WORD_BYTES] at hheap
  rw [compile_on_of_valid_step _ _ _ h, reserve_size_eq _ _ _ hRC (by omega), hmin]
  simp only [IR_BYTES, WORD_BYTES]
  split_ifs <;> first | rfl | (exfalso; omega)

/-- A valid input whose IR would be longer than `max_size()` never returns. -/
theorem compile_on_of_too_large (heap : Nat) (matrix_a matrix_b : List (List Int))
    (h : valid_input matrix_a matrix_b)
    (hN : IR_MAX_SIZE < rows matrix_a * cols matrix_b * (3 * cols matrix_a + 2)) :
    compile_matrix_mult_on heap matrix_a matrix_b = Except.error CompileError.length_error
      ∨ compile_matrix_mult_on heap matrix_a matrix_b
        = Except.error CompileError.bad_alloc := by
  rw [compile_on_of_valid_step _ _ _ h, if_pos hN]
  split_ifs <;> first | exact Or.inl rfl | exact Or.inr rfl

/-- When the argument of `reserve` does not wrap, an IR longer than
`max_size()` ends in `std::length_error`, whatever the free store. -/
theorem compile_on_of_too_large_lt (heap : Nat) (matrix_a matrix_b : List (List Int))
    (h : valid_input matrix_a matrix_b)
    (hN : IR_MAX_SIZE < rows matrix_a * cols matrix_b * (3 * cols matrix_a + 2))
    (hlt : rows matrix_a * cols matrix_b * (3 * cols matrix_a + 2) < 2 ^ 64) :
    compile_matrix_mult_on heap matrix_a matrix_b
      = Except.error CompileError.length_error := by
  have hRC : 0 < rows matrix_a * cols matrix_b := Nat.mul_pos h.1 h.2.2.2.1
  rw [compile_on_of_valid_step _ _ _ h, reserve_size_eq _ _ _ hRC hlt, if_pos hN]

theorem compile_on_of_empty (heap : Nat) (matrix_a matrix_b : List (List Int))
    (h : rows matrix_a = 0 ∨ rows matrix_b = 0 ∨ cols matrix_a = 0 ∨ cols matrix_b = 0) :
    compile_matrix_mult_on heap matrix_a matrix_b
      = Except.error (CompileError.runtime_error MSG_EMPTY) := by
  unfold compile_matrix_mult_on
  rw [if_pos ((guard_empty_iff matrix_a matrix_b).mpr h)]

theorem compile_on_of_mismatch (heap : Nat) (matrix_a matrix_b : List (List Int))
    (h : ¬ (rows matrix_a = 0 ∨ rows matrix_b = 0 ∨ cols matrix_a = 0 ∨ cols matrix_b = 0))
    (hne : cols matrix_a ≠ rows matrix_b) :
    compile_matrix_mult_on heap matrix_a matrix_b
      = Except.error (CompileError.runtime_error MSG_MISMATCH) := by
  unfold compile_matrix_mult_on
  rw [if_neg (fun hg => h ((guard_empty_iff matrix_a matrix_b).mp hg))]
  have hne' : (matrix_a.headD []).length ≠ matrix_b.length := hne
  exact if_pos hne'

theorem compile_on_error_of_not_valid (heap : Nat) (matrix_a matrix_b : List (List Int))
    (h : ¬ valid_input matrix_a matrix_b) :
    compile_matrix_mult_on heap matrix_a matrix_b
        = Except.error (CompileError.runtime_error MSG_EMPTY)
      ∨ compile_matrix_mult_on heap matrix_a matrix_b
        = Except.error (CompileError.runtime_error MSG_MISMATCH) := by
  by_cases he : rows matrix_a = 0 ∨ rows matrix_b = 0 ∨ cols matrix_a = 0 ∨ cols matrix_b = 0
  · exact Or.inl (compile_on_of_empty _ _ _ he)
  · refine Or.inr (compile_on_of_mismatch _ _ _ he ?_)
    intro heq
    apply h
    unfold valid_input
    omega

/-- When `compile_matrix_mult_on` returns, the input is valid, the IR fits the
vector and the free store, and the result is the translation of the IR of
stage 1. -/
theorem compile_on_ok_imp (heap : Nat) (matrix_a matrix_b : List (List Int)) (ws : List Nat)
    (h : compile_matrix_mult_on heap matrix_a matrix_b = Except.ok ws) :
    valid_input matrix_a matrix_b
      ∧ rows matrix_a * cols matrix_b * (3 * cols matrix_a + 2) ≤ IR_MAX_SIZE
      ∧ (IR_BYTES + WORD_BYTES) * (rows matrix_a * cols matrix_b * (3 * cols matrix_a + 2))
          ≤ heap
      ∧ ws = translate_ir_to_pim
          (generate_ir (rows matrix_a) (cols matrix_a) (cols matrix_b))
          (rows matrix_a) (cols matrix_a) (cols matrix_b) := by
  by_cases hv : valid_input matrix_a matrix_b
  · by_cases hN : rows matrix_a * cols matrix_b * (3 * cols matrix_a + 2) ≤ IR_MAX_SIZE
    · by_cases hh : (IR_BYTES + WORD_BYTES)
          * (rows matrix_a * cols matrix_b * (3 * cols matrix_a + 2)) ≤ heap
      · rw [compile_on_of_valid _ _ _ hv hN hh] at h
        injection h with h
        exact ⟨hv, hN, hh, h.symm⟩
      · rw [compile_on_of_low_heap _ _ _ hv hN (by omega)] at h
        exact absurd h (by simp)
    · rcases compile_on_of_too_large heap _ _ hv (by omega) with he | he <;> rw [he] at h <;>
        exact absurd h (by simp)
  · rcases compile_on_error_of_not_valid heap _ _ hv with he | he <;> rw [he] at h <;>
      exact absurd h (by simp)

/-! ## The result of `compile_matrix_mult` -/

theorem compile_of_valid (matrix_a matrix_b : List (List Int))
    (h : valid_input matrix_a matrix_b)
    (hN : rows matrix_a * cols matrix_b * (3 * cols matrix_a + 2) ≤ IR_MAX_SIZE) :
    compile_matrix_mult matrix_a matrix_b
      = Except.ok (translate_ir_to_pim
          (generate_ir (rows matrix_a) (cols matrix_a) (cols matrix_b))
          (rows matrix_a) (cols matrix_a) (cols matrix_b)) :=
  compile_on_of_valid AMPLE_HEAP _ _ h hN (Nat.mul_le_mul_left _ hN)

/-- With an ample free store, a valid input whose IR would be longer than
`max_size()` ends in `std::length_error`, from `reserve` or from the growth of
the vector. -/
theorem compile_of_too_large (matrix_a matrix_b : List (List Int))
    (h : valid_input matrix_a matrix_b)
    (hN : IR_MAX_SIZE < rows matrix_a * cols matrix_b * (3 * cols matrix_a + 2)) :
    compile_matrix_mult matrix_a matrix_b = Except.error CompileError.length_error := by
  unfold compile_matrix_mult
  rw [compile_on_of_valid_step _ _ _ h, if_pos hN, Nat.min_eq_right (Nat.le_of_lt hN)]
  by_cases h1 : IR_MAX_SIZE < reserve_size (rows matrix_a) (cols matrix_a) (cols matrix_b)
  · rw [if_pos h1]
  · rw [if_neg h1, if_neg, if_neg]
    · simp only [AMPLE_HEAP, IR_BYTES, WORD_BYTES]; omega
    · simp only [AMPLE_HEAP, IR_BYTES, WORD_BYTES]; omega

theorem compile_of_empty (matrix_a matrix_b : List (List Int))
    (h : rows matrix_a = 0 ∨ rows matrix_b = 0 ∨ cols matrix_a = 0 ∨ cols matrix_b = 0) :
    compile_matrix_mult matrix_a matrix_b
      = Except.error (CompileError.runtime_error MSG_EMPTY) :=
  compile_on_of_empty AMPLE_HEAP _ _ h

theorem compile_of_mismatch (matrix_a matrix_b : List (List Int))
    (h : ¬ (rows matrix_a = 0 ∨ rows matrix_b = 0 ∨ cols matrix_a = 0 ∨ cols matrix_b = 0))
    (hne : cols matrix_a ≠ rows matrix_b) :
    compile_matrix_mult matrix_a matrix_b
      = Except.error (CompileError.runtime_error MSG_MISMATCH) :=
  compile_on_of_mismatch AMPLE_HEAP _ _ h hne

theorem compile_error_of_not_valid (matrix_a matrix_b : List (List Int))
    (h : ¬ valid_input matrix_a matrix_b) :
    compile_matrix_mult matrix_a matrix_b
        = Except.error (CompileError.runtime_error MSG_EMPTY)
      ∨ compile_matrix_mult matrix_a matrix_b
        = Except.error (CompileError.runtime_error MSG_MISMATCH) :=
  compile_on_error_of_not_valid AMPLE_HEAP _ _ h

/-- When `compile_matrix_mult` returns, the input is valid, the IR fits the
vector, and the result is the translation of the IR of stage 1. -/
theorem compile_ok_imp (matrix_a matrix_b : List (List Int)) (ws : List Nat)
    (h : compile_matrix_mult matrix_a matrix_b = Except.ok ws) :
    valid_input matrix_a matrix_b
      ∧ rows matrix_a * cols matrix_b * (3 * cols matrix_a + 2) ≤ IR_MAX_SIZE
      ∧ ws = translate_ir_to_pim
          (generate_ir (rows matrix_a) (cols matrix_a) (cols matrix_b))
          (rows matrix_a) (cols matrix_a) (cols matrix_b) := by
  obtain ⟨hv, hN, _, hws⟩ := compile_on_ok_imp AMPLE_HEAP matrix_a matrix_b ws h
  exact ⟨hv, hN, hws⟩

theorem translate_op_lt (ir_op : IROperation) (cols_a cols_b w : Nat)
    (h : translate_op ir_op cols_a cols_b = some w) : w < 2 ^ 19 := by
  unfold translate_op at h
  split_ifs at h <;> injection h with h <;> rw [← h] <;> exact instr_format.pack_lt _ _ _ _ _

theorem translate_mem_lt (ir_code : List IROperation) (rows_a cols_a cols_b w : Nat)
    (h : w ∈ translate_ir_to_pim ir_code rows_a cols_a cols_b) : w < 2 ^ 19 := by
  rw [translate_eq_filterMap, List.mem_filterMap] at h
  obtain ⟨ir_op, _, hop⟩ := h
  exact translate_op_lt ir_op cols_a cols_b w hop

theorem shiftRight_19_eq_zero {w : Nat} (h : w < 2 ^ 19) : w >>> 19 = 0 := by
  rw [Nat.shiftRight_eq_div_pow]
  exact Nat.div_eq_of_lt h

/-! ## The codec -/

open instr_format

/-- C1: codec round trip. For each of the four opcodes and all values of the
other fields, decoding the packed word returns the opcode, the core pointer
masked to 6 bits, the two flags and the row address masked to 9 bits; when the
core pointer is below 64 and the row address below 512 the identical tuple is
returned. -/
theorem codec_round_trip (op : Opcode) (core_ptr : Nat) (rd wr : Bool) (row_addr : Nat)
    (hop : op = Opcode.MEM_LOAD ∨ op = Opcode.MEM_STORE ∨ op = Opcode.COMPUTE_SETUP
      ∨ op = Opcode.COMPUTE_EXEC) :
    unpack (pack op core_ptr rd wr row_addr)
        = { opcode := op, core_ptr := core_ptr &&& 0x3F, rd := rd, wr := wr,
            row_addr := row_addr &&& 0x1FF }
      ∧ (core_ptr < 64 → row_addr < 512 →
          unpack (pack op core_ptr rd wr row_addr)
            = { opcode := op, core_ptr := core_ptr, rd := rd, wr := wr,
                row_addr := row_addr }) := by
  have hval : (⟨op.val % 4⟩ : Opcode) = op := by
    rcases hop with h | h | h | h <;> subst h <;> rfl
  have hmain := unpack_pack_masked op core_ptr rd wr row_addr
  rw [hval] at hmain
  refine ⟨?_, fun hc hr => ?_⟩
  · rw [hmain, and_mask_63, and_mask_511]
  · rw [hmain, Nat.mod_eq_of_lt hc, Nat.mod_eq_of_lt hr]

theorem codec_round_trip_witness :
    (Opcode.COMPUTE_EXEC = Opcode.MEM_LOAD ∨ Opcode.COMPUTE_EXEC = Opcode.MEM_STORE
        ∨ Opcode.COMPUTE_EXEC = Opcode.COMPUTE_SETUP ∨ Opcode.COMPUTE_EXEC = Opcode.COMPUTE_EXEC)
      ∧ (unpack (pack Opcode.COMPUTE_EXEC 70 true false 1000)
            = { opcode := Opcode.COMPUTE_EXEC, core_ptr := 70 &&& 0x3F, rd := true, wr := false,
                row_addr := 1000 &&& 0x1FF }
          ∧ (70 < 64 → 1000 < 512 →
              unpack (pack Opcode.COMPUTE_EXEC 70 true false 1000)
                = { opcode := Opcode.COMPUTE_EXEC, core_ptr := 70, rd := true, wr := false,
                    row_addr := 1000 })) :=
  ⟨by decide, codec_round_trip Opcode.COMPUTE_EXEC 70 true false 1000 (by decide)⟩

/-- C7: the upper bits are zero. Whatever the arguments, `pack` returns a word
below `2^19`; hence every word returned by `translate_ir_to_pim`, and every
word of a sequence returned by `compile_matrix_mult`, is below `2^19` and has
nothing above bit 18. -/
theorem upper_bits_zero :
    (∀ (op : Opcode) (core_ptr : Nat) (rd wr : Bool) (row_addr : Nat),
        pack op core_ptr rd wr row_addr < 2 ^ 19
          ∧ pack op core_ptr rd wr row_addr >>> 19 = 0)
      ∧ (∀ (ir_code : List IROperation) (rows_a cols_a cols_b : Nat),
          ∀ w ∈ translate_ir_to_pim ir_code rows_a cols_a cols_b, w < 2 ^ 19 ∧ w >>> 19 = 0)
      ∧ (∀ (matrix_a matrix_b : List (List Int)) (ws : List Nat),
          compile_matrix_mult matrix_a matrix_b = Except.ok ws →
            ∀ w ∈ ws, w < 2 ^ 19 ∧ w >>> 19 = 0) := by
  refine ⟨fun op core_ptr rd wr row_addr => ?_, fun ir_code rows_a cols_a cols_b w hw => ?_,
    fun matrix_a matrix_b ws hws w hw => ?_⟩
  · exact ⟨pack_lt _ _ _ _ _, shiftRight_19_eq_zero (pack_lt _ _ _ _ _)⟩
  · have h := translate_mem_lt ir_code rows_a cols_a cols_b w hw
    exact ⟨h, shiftRight_19_eq_zero h⟩
  · obtain ⟨_, _, hws⟩ := compile_ok_imp matrix_a matrix_b ws hws
    subst hws
    have h := translate_mem_lt _ _ _ _ w hw
    exact ⟨h, shiftRight_19_eq_zero h⟩

/-- C8: bit-field layout. For an opcode value `o` below 4 the packed word is
`o·2^17 + (core_ptr mod 64)·2^11 + rd·2^10 + wr·2^9 + (row_addr mod 512)`:
the opcode is read back from bits 18-17, the core pointer from bits 16-11, the
read flag from bit 10, the write flag from bit 9 and the row address from bits
8-0, so no field overlaps another. -/
theorem pack_bit_layout (o core_ptr : Nat) (rd wr : Bool) (row_addr : Nat) (ho : o < 4) :
    pack ⟨o⟩ core_ptr rd wr row_addr
        = o * 2 ^ 17 + (core_ptr % 64) * 2 ^ 11 + rd.toNat * 2 ^ 10 + wr.toNat * 2 ^ 9
          + row_addr % 512
      ∧ pack ⟨o⟩ core_ptr rd wr row_addr >>> 17 = o
      ∧ (pack ⟨o⟩ core_ptr rd wr row_addr >>> 11) % 2 ^ 6 = core_ptr % 64
      ∧ (pack ⟨o⟩ core_ptr rd wr row_addr >>> 10) % 2 = rd.toNat
      ∧ (pack ⟨o⟩ core_ptr rd wr row_addr >>> 9) % 2 = wr.toNat
      ∧ pack ⟨o⟩ core_ptr rd wr row_addr % 2 ^ 9 = row_addr % 512 := by
  have h3 := flag_lt rd
  have h4 := flag_lt wr
  have e := pack_eq_sum ⟨o⟩ core_ptr rd wr row_addr
  rw [show (Opcode.mk o).val % 4 = o from Nat.mod_eq_of_lt ho] at e
  simp only [Nat.shiftRight_eq_div_pow]
  rw [e]
  refine ⟨rfl, ?_, ?_, ?_, ?_, ?_⟩ <;> omega

theorem pack_bit_layout_witness :
    3 < 4
      ∧ (pack ⟨3⟩ 77 true false 600
            = 3 * 2 ^ 17 + (77 % 64) * 2 ^ 11 + true.toNat * 2 ^ 10 + false.toNat * 2 ^ 9
              + 600 % 512
          ∧ pack ⟨3⟩ 77 true false 600 >>> 17 = 3
          ∧ (pack ⟨3⟩ 77 true false 600 >>> 11) % 2 ^ 6 = 77 % 64
          ∧ (pack ⟨3⟩ 77 true false 600 >>> 10) % 2 = true.toNat
          ∧ (pack ⟨3⟩ 77 true false 600 >>> 9) % 2 = false.toNat
          ∧ pack ⟨3⟩ 77 true false 600 % 2 ^ 9 = 600 % 512) :=
  ⟨by decide, pack_bit_layout 3 77 true false 600 (by decide)⟩

/-- C9: decode then encode is the identity on instruction words. Packing the
five fields of `unpack w` gives `w & 0x7FFFF`, hence `w` itself when `w` is
below `2^19`; the fields of `unpack w` are always in range, and on in-range
fields `unpack` undoes `pack`, so the two functions are inverse bijections
between in-range field tuples and 19-bit words. -/
theorem pack_unpack_identity :
    (∀ w : Nat,
        pack (unpack w).opcode (unpack w).core_ptr (unpack w).rd (unpack w).wr
          (unpack w).row_addr = w &&& 0x7FFFF)
      ∧ (∀ w : Nat, w < 2 ^ 19 →
          pack (unpack w).opcode (unpack w).core_ptr (unpack w).rd (unpack w).wr
            (unpack w).row_addr = w)
      ∧ (∀ w : Nat,
          (unpack w).opcode.val < 4 ∧ (unpack w).core_ptr < 64 ∧ (unpack w).row_addr < 512)
      ∧ (∀ (op : Opcode) (core_ptr : Nat) (rd wr : Bool) (row_addr : Nat),
          op.val < 4 → core_ptr < 64 → row_addr < 512 →
            pack op core_ptr rd wr row_addr < 2 ^ 19
              ∧ unpack (pack op core_ptr rd wr row_addr)
                  = { opcode := op, core_ptr := core_ptr, rd := rd, wr := wr,
                      row_addr := row_addr }) := by
  refine ⟨fun w => ?_, fun w hw => ?_, fun w => ?_, fun op core_ptr rd wr row_addr ho hc hr => ?_⟩
  · rw [pack_unpack_mod]
    exact (Nat.and_pow_two_sub_one_eq_mod w 19).symm
  · rw [pack_unpack_mod, Nat.mod_eq_of_lt hw]
  · rw [unpack_eq]
    refine ⟨?_, ?_, ?_⟩ <;> simp only <;> omega
  · refine ⟨pack_lt _ _ _ _ _, ?_⟩
    rw [unpack_pack_masked, Nat.mod_eq_of_lt ho, Nat.mod_eq_of_lt hc, Nat.mod_eq_of_lt hr]

/-! ## The encoder -/

/-- C5: the per-operation translation table. For every IR operation and all
dimensions `translate_ir_to_pim` emits one word, and it decodes according to
the kind of the operation: reset gives `(COMPUTE_SETUP, 0, 0, 0, 0)`, a load of
A gives `(MEM_LOAD, buffer & 0x3F, 1, 0, (i·K + k) mod 512)`, a load of B gives
`(MEM_LOAD, buffer & 0x3F, 1, 0, (100 + k·C + j) mod 512)`, execute gives
`(COMPUTE_EXEC, 0, 0, 0, 0)` and store gives
`(MEM_STORE, 0, 0, 1, (200 + i·C + j) mod 512)`. No address is rejected, and
the wrap of the address computation to the machine word does not show. -/
theorem translation_table (ir_op : IROperation) (rows_a cols_a cols_b : Nat) :
    (ir_op.type = IROpType.RESET_ACC →
        ∃ w, translate_ir_to_pim [ir_op] rows_a cols_a cols_b = [w]
          ∧ unpack w = { opcode := Opcode.COMPUTE_SETUP, core_ptr := 0, rd := false,
                         wr := false, row_addr := 0 })
      ∧ (ir_op.type = IROpType.LOAD_A_ELEMENT →
        ∃ w, translate_ir_to_pim [ir_op] rows_a cols_a cols_b = [w]
          ∧ unpack w = { opcode := Opcode.MEM_LOAD, core_ptr := ir_op.target_buffer &&& 0x3F,
                         rd := true, wr := false,
                         row_addr := (ir_op.i * cols_a + ir_op.k) % 512 })
      ∧ (ir_op.type = IROpType.LOAD_B_ELEMENT →
        ∃ w, translate_ir_to_pim [ir_op] rows_a cols_a cols_b = [w]
          ∧ unpack w = { opcode := Opcode.MEM_LOAD, core_ptr := ir_op.target_buffer &&& 0x3F,
                         rd := true, wr := false,
                         row_addr := (100 + ir_op.k * cols_b + ir_op.j) % 512 })
      ∧ (ir_op.type = IROpType.EXECUTE_MAC →
        ∃ w, translate_ir_to_pim [ir_op] rows_a cols_a cols_b = [w]
          ∧ unpack w = { opcode := Opcode.COMPUTE_EXEC, core_ptr := 0, rd := false,
                         wr := false, row_addr := 0 })
      ∧ (ir_op.type = IROpType.STORE_C_ELEMENT →
        ∃ w, translate_ir_to_pim [ir_op] rows_a cols_a cols_b = [w]
          ∧ unpack w = { opcode := Opcode.MEM_STORE, core_ptr := 0, rd := false,
                         wr := true,
                         row_addr := (200 + ir_op.i * cols_b + ir_op.j) % 512 }) := by
  refine ⟨fun h => ?_, fun h => ?_, fun h => ?_, fun h => ?_, fun h => ?_⟩
  · exact ⟨_, translate_singleton _ _ _ _ _ (translate_op_reset ir_op cols_a cols_b h),
      by rw [unpack_pack_masked]; rfl⟩
  · refine ⟨_, translate_singleton _ _ _ _ _ (translate_op_load_a ir_op cols_a cols_b h), ?_⟩
    rw [unpack_pack_masked, addr_mod, u32_mod_64, and_mask_63, MATRIX_A_BASE, Nat.zero_add]
    rfl
  · refine ⟨_, translate_singleton _ _ _ _ _ (translate_op_load_b ir_op cols_a cols_b h), ?_⟩
    rw [unpack_pack_masked, addr_mod, u32_mod_64, and_mask_63, MATRIX_B_BASE]
    rfl
  · exact ⟨_, translate_singleton _ _ _ _ _ (translate_op_exec ir_op cols_a cols_b h),
      by rw [unpack_pack_masked]; rfl⟩
  · refine ⟨_, translate_singleton _ _ _ _ _ (translate_op_store ir_op cols_a cols_b h), ?_⟩
    rw [unpack_pack_masked, addr_mod, MATRIX_C_BASE]
    rfl

theorem type_ofIndex (t : IROpType) (i j : Nat) : (IROperation.ofIndex t i j).type = t := rfl

theorem type_ofType (t : IROpType) : (IROperation.ofType t).type = t := rfl

theorem type_ofLoad (t : IROpType) (a b buf : Nat) : (IROperation.ofLoad t a b buf).type = t := by
  unfold IROperation.ofLoad
  split_ifs <;> rfl

theorem translate_op_of_recognized (ir_op : IROperation) (cols_a cols_b : Nat)
    (h : recognized ir_op) :
    translate_op ir_op cols_a cols_b = some (encode ir_op cols_a cols_b) := by
  unfold encode
  rcases h with h | h | h | h | h
  · rw [translate_op_reset _ _ _ h]; rfl
  · rw [translate_op_load_a _ _ _ h]; rfl
  · rw [translate_op_load_b _ _ _ h]; rfl
  · rw [translate_op_exec _ _ _ h]; rfl
  · rw [translate_op_store _ _ _ h]; rfl

/-- On recognised operations the encoder is an element-wise map. -/
theorem translate_eq_map (ir_code : List IROperation) (rows_a cols_a cols_b : Nat)
    (h : ∀ ir_op ∈ ir_code, recognized ir_op) :
    translate_ir_to_pim ir_code rows_a cols_a cols_b
      = ir_code.map (fun ir_op => encode ir_op cols_a cols_b) := by
  rw [translate_eq_filterMap]
  exact List.filterMap_eq_map_iff_forall_eq_some.mpr
    (fun ir_op hm => translate_op_of_recognized ir_op cols_a cols_b (h ir_op hm))

theorem recognized_ir_triple (i j k : Nat) : ∀ ir_op ∈ ir_triple i j k, recognized ir_op := by
  intro ir_op hm
  simp only [ir_triple, List.mem_cons, List.mem_singleton, List.not_mem_nil, or_false] at hm
  rcases hm with h | h | h <;> subst h
  · exact Or.inr (Or.inl (type_ofLoad _ _ _ _))
  · exact Or.inr (Or.inr (Or.inl (type_ofLoad _ _ _ _)))
  · exact Or.inr (Or.inr (Or.inr (Or.inl rfl)))

theorem recognized_ir_block (i j K : Nat) : ∀ ir_op ∈ ir_block i j K, recognized ir_op := by
  intro ir_op hm
  simp only [ir_block, ir_inner, List.mem_append, List.mem_singleton, List.mem_flatMap] at hm
  rcases hm with (h | ⟨k, _, h⟩) | h
  · subst h; exact Or.inl rfl
  · exact recognized_ir_triple i j k ir_op h
  · subst h; exact Or.inr (Or.inr (Or.inr (Or.inr rfl)))

theorem recognized_ir_spec (R K C : Nat) : ∀ ir_op ∈ ir_spec R K C, recognized ir_op := by
  intro ir_op hm
  simp only [ir_spec, List.mem_flatMap] at hm
  obtain ⟨i, _, j, _, h⟩ := hm
  exact recognized_ir_block i j K ir_op h

/-- The instruction sequence of a valid input, as a map over the IR. -/
theorem compile_on_eq_map (heap : Nat) (matrix_a matrix_b : List (List Int))
    (h : valid_input matrix_a matrix_b)
    (hN : rows matrix_a * cols matrix_b * (3 * cols matrix_a + 2) ≤ IR_MAX_SIZE)
    (hheap : (IR_BYTES + WORD_BYTES) * (rows matrix_a * cols matrix_b * (3 * cols matrix_a + 2))
      ≤ heap) :
    compile_matrix_mult_on heap matrix_a matrix_b
      = Except.ok ((ir_spec (rows matrix_a) (cols matrix_a) (cols matrix_b)).map
          (fun ir_op => encode ir_op (cols matrix_a) (cols matrix_b))) := by
  rw [compile_on_of_valid _ _ _ h hN hheap, generate_ir_eq_spec,
    translate_eq_map _ _ _ _ (recognized_ir_spec _ _ _)]

theorem compile_eq_map (matrix_a matrix_b : List (List Int))
    (h : valid_input matrix_a matrix_b)
    (hN : rows matrix_a * cols matrix_b * (3 * cols matrix_a + 2) ≤ IR_MAX_SIZE) :
    compile_matrix_mult matrix_a matrix_b
      = Except.ok ((ir_spec (rows matrix_a) (cols matrix_a) (cols matrix_b)).map
          (fun ir_op => encode ir_op (cols matrix_a) (cols matrix_b))) := by
  rw [compile_of_valid _ _ h hN, generate_ir_eq_spec,
    translate_eq_map _ _ _ _ (recognized_ir_spec _ _ _)]

/-! ## The compiler -/

theorem rows_ragged_huge : rows ragged_huge = 1000000 := by
  unfold rows ragged_huge
  rw [List.length_cons, List.length_replicate]

theorem cols_ragged_huge : cols ragged_huge = 1000000 := by
  unfold cols ragged_huge
  rw [List.headD_cons, List.length_replicate]

theorem valid_ragged_huge : valid_input ragged_huge ragged_huge := by
  unfold valid_input
  rw [rows_ragged_huge, cols_ragged_huge]
  decide

theorem too_large_ragged_huge :
    IR_MAX_SIZE < rows ragged_huge * cols ragged_huge * (3 * cols ragged_huge + 2) := by
  rw [rows_ragged_huge, cols_ragged_huge]
  decide

theorem compile_on_ragged_huge (heap : Nat) :
    compile_matrix_mult_on heap ragged_huge ragged_huge
      = Except.error CompileError.length_error := by
  apply compile_on_of_too_large_lt heap _ _ valid_ragged_huge too_large_ragged_huge
  rw [rows_ragged_huge, cols_ragged_huge]
  decide

theorem rows_column_large : rows column_large = 1000000 := by
  unfold rows column_large
  rw [List.length_replicate]

theorem cols_column_large : cols column_large = 1 := by
  unfold cols column_large
  rw [show (1000000 : Nat) = 999999 + 1 from rfl, List.replicate_succ, List.headD_cons]
  rfl

theorem rows_row_large : rows row_large = 1 := rfl

theorem cols_row_large : cols row_large = 1000000 := by
  unfold cols row_large
  rw [List.headD_cons, List.length_replicate]

theorem valid_column_row_large : valid_input column_large row_large := by
  unfold valid_input
  rw [rows_column_large, cols_column_large, rows_row_large, cols_row_large]
  decide

/-- C2, as amended: `compile_matrix_mult`, run with `heap` bytes of free store,
fails exactly when matrix A has no rows, or matrix B has no rows, or the first
row of A is empty, or the first row of B is empty, or the length of the first
row of A differs from the number of rows of B, or the IR would have more
entries, `R·C·(3K+2)`, than a vector can hold (`max_size()`, here
`(2^63 - 1) / 40`), or the free store cannot supply the `44·R·C·(3K+2)` bytes
of the two vectors. Past the guards the exception is `std::length_error` when
the IR is too long for a vector and `std::bad_alloc` when it fits a vector but
not the free store. On every other input an instruction sequence is returned.
A matrix without rows times anything fails, and a 2×3 matrix times a 4×2
matrix fails. -/
theorem compile_fails_iff :
    (∀ (heap : Nat) (matrix_a matrix_b : List (List Int)),
        (∃ e, compile_matrix_mult_on heap matrix_a matrix_b = Except.error e)
          ↔ (rows matrix_a = 0 ∨ rows matrix_b = 0 ∨ cols matrix_a = 0 ∨ cols matrix_b = 0
              ∨ cols matrix_a ≠ rows matrix_b
              ∨ IR_MAX_SIZE < rows matrix_a * cols matrix_b * (3 * cols matrix_a + 2)
              ∨ heap < (IR_BYTES + WORD_BYTES)
                  * (rows matrix_a * cols matrix_b * (3 * cols matrix_a + 2))))
      ∧ (∀ (heap : Nat) (matrix_a matrix_b : List (List Int)),
          ¬ (rows matrix_a = 0 ∨ rows matrix_b = 0 ∨ cols matrix_a = 0 ∨ cols matrix_b = 0
              ∨ cols matrix_a ≠ rows matrix_b
              ∨ IR_MAX_SIZE < rows matrix_a * cols matrix_b * (3 * cols matrix_a + 2)
              ∨ heap < (IR_BYTES + WORD_BYTES)
                  * (rows matrix_a * cols matrix_b * (3 * cols matrix_a + 2))) →
            ∃ ws, compile_matrix_mult_on heap matrix_a matrix_b = Except.ok ws)
      ∧ (∀ (heap : Nat) (matrix_a matrix_b : List (List Int)),
          ¬ (rows matrix_a = 0 ∨ rows matrix_b = 0 ∨ cols matrix_a = 0 ∨ cols matrix_b = 0
              ∨ cols matrix_a ≠ rows matrix_b) →
          IR_MAX_SIZE < rows matrix_a * cols matrix_b * (3 * cols matrix_a + 2) →
          rows matrix_a * cols matrix_b * (3 * cols matrix_a + 2) < 2 ^ 64 →
            compile_matrix_mult_on heap matrix_a matrix_b
              = Except.error CompileError.length_error)
      ∧ (∀ (heap : Nat) (matrix_a matrix_b : List (List Int)),
          ¬ (rows matrix_a = 0 ∨ rows matrix_b = 0 ∨ cols matrix_a = 0 ∨ cols matrix_b = 0
              ∨ cols matrix_a ≠ rows matrix_b) →
          rows matrix_a * cols matrix_b * (3 * cols matrix_a + 2) ≤ IR_MAX_SIZE →
          heap < (IR_BYTES + WORD_BYTES)
              * (rows matrix_a * cols matrix_b * (3 * cols matrix_a + 2)) →
            compile_matrix_mult_on heap matrix_a matrix_b
              = Except.error CompileError.bad_alloc)
      ∧ (∀ (heap : Nat) (matrix_b : List (List Int)),
          ∃ e, compile_matrix_mult_on heap [] matrix_b = Except.error e)
      ∧ (∀ (heap : Nat) (matrix_a matrix_b : List (List Int)),
          rows matrix_a = 2 → cols matrix_a = 3 → rows matrix_b = 4 → cols matrix_b = 2 →
            ∃ e, compile_matrix_mult_on heap matrix_a matrix_b = Except.error e) := by
  have key : ∀ (heap : Nat) (matrix_a matrix_b : List (List Int)),
      ¬ valid_input matrix_a matrix_b →
        ∃ e, compile_matrix_mult_on heap matrix_a matrix_b = Except.error e := by
    intro heap matrix_a matrix_b hv
    rcases compile_on_error_of_not_valid heap _ _ hv with he | he
    · exact ⟨_, he⟩
    · exact ⟨_, he⟩
  refine ⟨fun heap matrix_a matrix_b => ⟨fun ⟨e, he⟩ => ?_, fun hc => ?_⟩,
    fun heap matrix_a matrix_b hc => ?_, fun heap matrix_a matrix_b hc hN hlt => ?_,
    fun heap matrix_a matrix_b hc hN hh => ?_, fun heap matrix_b => ?_,
    fun heap matrix_a matrix_b h1 h2 h3 h4 => ?_⟩
  · by_contra hc
    have hv : valid_input matrix_a matrix_b := (valid_input_iff _ _).mpr (by tauto)
    rw [compile_on_of_valid _ _ _ hv (by omega) (by omega)] at he
    exact absurd he (by simp)
  · by_cases hv : valid_input matrix_a matrix_b
    · have hv' := (valid_input_iff _ _).mp hv
      by_cases hN : IR_MAX_SIZE < rows matrix_a * cols matrix_b * (3 * cols matrix_a + 2)
      · rcases compile_on_of_too_large heap _ _ hv hN with he | he
        · exact ⟨_, he⟩
        · exact ⟨_, he⟩
      · have hh : heap < (IR_BYTES + WORD_BYTES)
            * (rows matrix_a * cols matrix_b * (3 * cols matrix_a + 2)) := by tauto
        exact ⟨_, compile_on_of_low_heap heap _ _ hv (by omega) hh⟩
    · exact key _ _ _ hv
  · have hv : valid_input matrix_a matrix_b := (valid_input_iff _ _).mpr (by tauto)
    exact ⟨_, compile_on_of_valid _ _ _ hv (by omega) (by omega)⟩
  · exact compile_on_of_too_large_lt _ _ _ ((valid_input_iff _ _).mpr hc) hN hlt
  · exact compile_on_of_low_heap _ _ _ ((valid_input_iff _ _).mpr hc) hN hh
  · exact ⟨_, compile_on_of_empty _ _ _ (Or.inl rfl)⟩
  · apply key
    intro hv
    have := hv.2.2.2.2
    omega

/-- The claim C2 as first stated fails. On the ragged 10^6 × 10^6 input none of
the five conditions holds, yet `reserve` is asked for `3000002000000000000`
entries and throws `std::length_error`, whatever the free store. On the
10^6 × 1 by 1 × 10^6 input none of the five conditions holds either, and with a
free store of `2^40` bytes the function ends in `std::bad_alloc`. -/
theorem compile_fails_iff_counterexample :
    (¬ (rows ragged_huge = 0 ∨ rows ragged_huge = 0 ∨ cols ragged_huge = 0
          ∨ cols ragged_huge = 0 ∨ cols ragged_huge ≠ rows ragged_huge)
        ∧ reserve_size (rows ragged_huge) (cols ragged_huge) (cols ragged_huge)
            = 3000002000000000000
        ∧ ∀ heap : Nat,
            compile_matrix_mult_on heap ragged_huge ragged_huge
              = Except.error CompileError.length_error)
      ∧ (¬ (rows column_large = 0 ∨ rows row_large = 0 ∨ cols column_large = 0
            ∨ cols row_large = 0 ∨ cols column_large ≠ rows row_large)
          ∧ compile_matrix_mult_on (2 ^ 40) column_large row_large
              = Except.error CompileError.bad_alloc) := by
  refine ⟨⟨?_, ?_, compile_on_ragged_huge⟩, ?_, ?_⟩
  · rw [rows_ragged_huge, cols_ragged_huge]
    decide
  · rw [rows_ragged_huge, cols_ragged_huge]
    decide
  · rw [rows_column_large, cols_column_large, rows_row_large, cols_row_large]
    decide
  · apply compile_on_of_low_heap _ _ _ valid_column_row_large
    · rw [rows_column_large, cols_column_large, cols_row_large]
      decide
    · rw [rows_column_large, cols_column_large, cols_row_large]
      decide

/-- C3, as amended: the length law. For a valid input with `R` rows of A, `K`
columns of A (rows of B) and `C` columns of B whose IR fits a vector,
`R·C·(3K+2) ≤ max_size()`, and a free store that supplies the two vectors,
`44·R·C·(3K+2)` bytes, the IR sequence of stage 1 has `R·C·(3K+2)` entries and
`compile_matrix_mult` returns a sequence of the same length `R·C·(3K+2)`: 99
for the 3×3 sample input, 3200 for the 10×10 sample input. -/
theorem length_law :
    (∀ (heap : Nat) (matrix_a matrix_b : List (List Int)), valid_input matrix_a matrix_b →
        rows matrix_a * cols matrix_b * (3 * cols matrix_a + 2) ≤ IR_MAX_SIZE →
        (IR_BYTES + WORD_BYTES) * (rows matrix_a * cols matrix_b * (3 * cols matrix_a + 2))
          ≤ heap →
        (generate_ir (rows matrix_a) (cols matrix_a) (cols matrix_b)).length
            = rows matrix_a * cols matrix_b * (3 * cols matrix_a + 2)
          ∧ ∃ ws, compile_matrix_mult_on heap matrix_a matrix_b = Except.ok ws
              ∧ ws.length = rows matrix_a * cols matrix_b * (3 * cols matrix_a + 2))
      ∧ (∀ heap : Nat, (IR_BYTES + WORD_BYTES) * 99 ≤ heap →
          (generate_ir (rows sample_a) (cols sample_a) (cols sample_b)).length = 99
            ∧ ∃ ws, compile_matrix_mult_on heap sample_a sample_b = Except.ok ws
                ∧ ws.length = 99)
      ∧ (∀ heap : Nat, (IR_BYTES + WORD_BYTES) * 3200 ≤ heap →
          (generate_ir (rows sample10_a) (cols sample10_a) (cols sample10_b)).length = 3200
            ∧ ∃ ws, compile_matrix_mult_on heap sample10_a sample10_b = Except.ok ws
                ∧ ws.length = 3200) := by
  have key : ∀ (heap : Nat) (matrix_a matrix_b : List (List Int)),
      valid_input matrix_a matrix_b →
      rows matrix_a * cols matrix_b * (3 * cols matrix_a + 2) ≤ IR_MAX_SIZE →
      (IR_BYTES + WORD_BYTES) * (rows matrix_a * cols matrix_b * (3 * cols matrix_a + 2))
        ≤ heap →
      (generate_ir (rows matrix_a) (cols matrix_a) (cols matrix_b)).length
          = rows matrix_a * cols matrix_b * (3 * cols matrix_a + 2)
        ∧ ∃ ws, compile_matrix_mult_on heap matrix_a matrix_b = Except.ok ws
            ∧ ws.length = rows matrix_a * cols matrix_b * (3 * cols matrix_a + 2) := by
    intro heap matrix_a matrix_b hv hN hh
    refine ⟨length_generate_ir _ _ _, _, compile_on_eq_map _ _ _ hv hN hh, ?_⟩
    rw [List.length_map, length_ir_spec]
  have v3 : valid_input sample_a sample_b := by decide
  have v10 : valid_input sample10_a sample10_b := by decide
  exact ⟨key, fun heap hh => key heap _ _ v3 (by decide) hh,
    fun heap hh => key heap _ _ v10 (by decide) hh⟩

/-- The claim C3 as first stated fails on the ragged 10^6 × 10^6 input: it is
valid, yet whatever the free store `compile_matrix_mult` returns no sequence,
of length `R·C·(3K+2)` or of any other. -/
theorem length_law_counterexample :
    valid_input ragged_huge ragged_huge
      ∧ ∀ heap : Nat,
          ¬ ∃ ws, compile_matrix_mult_on heap ragged_huge ragged_huge = Except.ok ws
            ∧ ws.length
                = rows ragged_huge * cols ragged_huge * (3 * cols ragged_huge + 2) := by
  refine ⟨valid_ragged_huge, fun heap => ?_⟩
  rintro ⟨ws, hws, _⟩
  rw [compile_on_ragged_huge] at hws
  exact absurd hws (by simp)

theorem length_law_witness :
    (valid_input [[1, 2], [3, 4]] [[5, 6], [7, 8]] ∧ 2 * 2 * (3 * 2 + 2) ≤ IR_MAX_SIZE
        ∧ (IR_BYTES + WORD_BYTES) * (2 * 2 * (3 * 2 + 2)) ≤ 4096)
      ∧ ((generate_ir 2 2 2).length = 2 * 2 * (3 * 2 + 2)
          ∧ ∃ ws, compile_matrix_mult_on 4096 [[1, 2], [3, 4]] [[5, 6], [7, 8]] = Except.ok ws
              ∧ ws.length = 2 * 2 * (3 * 2 + 2)) :=
  ⟨by decide,
    length_law.1 4096 [[1, 2], [3, 4]] [[5, 6], [7, 8]] (by decide) (by decide) (by decide)⟩

/-! ## Decoding the emitted words -/

theorem encode_eq_of_translate {ir_op : IROperation} {cols_a cols_b w : Nat}
    (h : translate_op ir_op cols_a cols_b = some w) : encode ir_op cols_a cols_b = w := by
  unfold encode
  rw [h]
  rfl

theorem unpack_encode_reset (ir_op : IROperation) (cols_a cols_b : Nat)
    (h : ir_op.type = IROpType.RESET_ACC) :
    unpack (encode ir_op cols_a cols_b)
      = { opcode := Opcode.COMPUTE_SETUP, core_ptr := 0, rd := false, wr := false,
          row_addr := 0 } := by
  rw [encode_eq_of_translate (translate_op_reset ir_op cols_a cols_b h), unpack_pack_masked]
  rfl

theorem unpack_encode_load_a (ir_op : IROperation) (cols_a cols_b : Nat)
    (h : ir_op.type = IROpType.LOAD_A_ELEMENT) :
    unpack (encode ir_op cols_a cols_b)
      = { opcode := Opcode.MEM_LOAD, core_ptr := ir_op.target_buffer % 64, rd := true,
          wr := false, row_addr := (ir_op.i * cols_a + ir_op.k) % 512 } := by
  rw [encode_eq_of_translate (translate_op_load_a ir_op cols_a cols_b h), unpack_pack_masked,
    addr_mod, u32_mod_64, MATRIX_A_BASE, Nat.zero_add]
  rfl

theorem unpack_encode_load_b (ir_op : IROperation) (cols_a cols_b : Nat)
    (h : ir_op.type = IROpType.LOAD_B_ELEMENT) :
    unpack (encode ir_op cols_a cols_b)
      = { opcode := Opcode.MEM_LOAD, core_ptr := ir_op.target_buffer % 64, rd := true,
          wr := false, row_addr := (100 + ir_op.k * cols_b + ir_op.j) % 512 } := by
  rw [encode_eq_of_translate (translate_op_load_b ir_op cols_a cols_b h), unpack_pack_masked,
    addr_mod, u32_mod_64, MATRIX_B_BASE]
  rfl

theorem unpack_encode_exec (ir_op : IROperation) (cols_a cols_b : Nat)
    (h : ir_op.type = IROpType.EXECUTE_MAC) :
    unpack (encode ir_op cols_a cols_b)
      = { opcode := Opcode.COMPUTE_EXEC, core_ptr := 0, rd := false, wr := false,
          row_addr := 0 } := by
  rw [encode_eq_of_translate (translate_op_exec ir_op cols_a cols_b h), unpack_pack_masked]
  rfl

theorem unpack_encode_store (ir_op : IROperation) (cols_a cols_b : Nat)
    (h : ir_op.type = IROpType.STORE_C_ELEMENT) :
    unpack (encode ir_op cols_a cols_b)
      = { opcode := Opcode.MEM_STORE, core_ptr := 0, rd := false, wr := true,
          row_addr := (200 + ir_op.i * cols_b + ir_op.j) % 512 } := by
  rw [encode_eq_of_translate (translate_op_store ir_op cols_a cols_b h), unpack_pack_masked,
    addr_mod, MATRIX_C_BASE]
  rfl

/-! ## Positions in the generated IR -/

theorem ir_spec_reset_at (R K C i j : Nat) (hi : i < R) (hj : j < C) :
    (ir_spec R K C)[(i * C + j) * (3 * K + 2)]?
      = some (IROperation.ofIndex IROpType.RESET_ACC i j) := by
  have h := getElem?_ir_spec R K C i j 0 hi hj (by omega)
  rw [Nat.add_zero] at h
  rw [h, getElem?_ir_block_reset]

theorem ir_spec_triple_at (R K C i j k t : Nat) (hi : i < R) (hj : j < C) (hk : k < K)
    (ht : t < 3) :
    (ir_spec R K C)[(i * C + j) * (3 * K + 2) + (1 + t) + 3 * k]? = (ir_triple i j k)[t]? := by
  have e : (i * C + j) * (3 * K + 2) + (1 + t) + 3 * k
      = (i * C + j) * (3 * K + 2) + (1 + (k * 3 + t)) := by omega
  rw [e, getElem?_ir_spec R K C i j _ hi hj (by omega),
    getElem?_ir_block_inner i j K _ (by omega), getElem?_ir_inner i j K k t hk ht]

theorem ir_spec_store_at (R K C i j : Nat) (hi : i < R) (hj : j < C) :
    (ir_spec R K C)[(i * C + j) * (3 * K + 2) + 3 * K + 1]?
      = some (IROperation.ofIndex IROpType.STORE_C_ELEMENT i j) := by
  rw [Nat.add_assoc, getElem?_ir_spec R K C i j _ hi hj (by omega), getElem?_ir_block_store]

/-- C6: the IR generator algorithm. Stage 1 of `compile_matrix_mult` builds
exactly the concatenation, for `i = 0 .. R-1` (outer) and `j = 0 .. C-1`
(inner), of the block made of the reset of `(i, j)`, then for `k = 0 .. K-1`
the load of `A[i][k]` into buffer 0, the load of `B[k][j]` into buffer 1 and
the multiply-accumulate, then the store of `(i, j)`. Equivalently, with
`base = (i·C + j)·(3K+2)`, entry `base` is the reset, `base+1+3k` the A-load,
`base+2+3k` the B-load, `base+3+3k` the execute and `base+3K+1` the store.
Whenever `compile_matrix_mult` returns, with any free store, it returns the
translation of this sequence, and it does return on a valid input whose IR
fits a vector and whose two vectors fit the free store. -/
theorem ir_generator_algorithm (R K C : Nat) :
    generate_ir R K C
        = (List.range R).flatMap (fun i => (List.range C).flatMap (fun j =>
            [IROperation.ofIndex IROpType.RESET_ACC i j]
              ++ (List.range K).flatMap (fun k =>
                  [IROperation.ofLoad IROpType.LOAD_A_ELEMENT i k 0,
                   IROperation.ofLoad IROpType.LOAD_B_ELEMENT k j 1,
                   IROperation.ofType IROpType.EXECUTE_MAC])
              ++ [IROperation.ofIndex IROpType.STORE_C_ELEMENT i j]))
      ∧ (∀ i j : Nat, i < R → j < C →
          (generate_ir R K C)[(i * C + j) * (3 * K + 2)]?
              = some (IROperation.ofIndex IROpType.RESET_ACC i j)
            ∧ (∀ k : Nat, k < K →
                (generate_ir R K C)[(i * C + j) * (3 * K + 2) + 1 + 3 * k]?
                    = some (IROperation.ofLoad IROpType.LOAD_A_ELEMENT i k 0)
                  ∧ (generate_ir R K C)[(i * C + j) * (3 * K + 2) + 2 + 3 * k]?
                    = some (IROperation.ofLoad IROpType.LOAD_B_ELEMENT k j 1)
                  ∧ (generate_ir R K C)[(i * C + j) * (3 * K + 2) + 3 + 3 * k]?
                    = some (IROperation.ofType IROpType.EXECUTE_MAC))
            ∧ (generate_ir R K C)[(i * C + j) * (3 * K + 2) + 3 * K + 1]?
              = some (IROperation.ofIndex IROpType.STORE_C_ELEMENT i j))
      ∧ (∀ (heap : Nat) (matrix_a matrix_b : List (List Int)) (ws : List Nat),
          compile_matrix_mult_on heap matrix_a matrix_b = Except.ok ws →
          R = rows matrix_a → K = cols matrix_a → C = cols matrix_b →
            ws = translate_ir_to_pim (generate_ir R K C) R K C)
      ∧ (∀ (heap : Nat) (matrix_a matrix_b : List (List Int)),
          valid_input matrix_a matrix_b →
          R = rows matrix_a → K = cols matrix_a → C = cols matrix_b →
          R * C * (3 * K + 2) ≤ IR_MAX_SIZE →
          (IR_BYTES + WORD_BYTES) * (R * C * (3 * K + 2)) ≤ heap →
            compile_matrix_mult_on heap matrix_a matrix_b
              = Except.ok (translate_ir_to_pim (generate_ir R K C) R K C)) := by
  refine ⟨generate_ir_eq_spec R K C, fun i j hi hj => ?_,
    fun heap matrix_a matrix_b ws hws hR hK hC => ?_,
    fun heap matrix_a matrix_b hv hR hK hC hN hh => ?_⟩
  · rw [generate_ir_eq_spec]
    refine ⟨ir_spec_reset_at R K C i j hi hj, fun k hk => ⟨?_, ?_, ?_⟩,
      ir_spec_store_at R K C i j hi hj⟩
    · exact ir_spec_triple_at R K C i j k 0 hi hj hk (by omega)
    · exact ir_spec_triple_at R K C i j k 1 hi hj hk (by omega)
    · exact ir_spec_triple_at R K C i j k 2 hi hj hk (by omega)
  · subst hR hK hC
    exact (compile_on_ok_imp heap _ _ ws hws).2.2.2
  · subst hR hK hC
    exact compile_on_of_valid heap _ _ hv hN hh

/-- C4: the end-to-end address mapping. For a valid input whose three matrices
fit the 9-bit address field (`R·K ≤ 512`, `100 + K·C ≤ 512`, `200 + R·C ≤ 512`)
and all `i < R`, `j < C`, `k < K`, with `base = (i·C + j)·(3K+2)`, the sequence
returned by `compile_matrix_mult` decodes at `base` to `(COMPUTE_SETUP, 0, 0, 0, 0)`,
at `base+1+3k` to `(MEM_LOAD, 0, 1, 0, i·K + k)`, at `base+2+3k` to
`(MEM_LOAD, 1, 1, 0, 100 + k·C + j)`, at `base+3+3k` to `(COMPUTE_EXEC, 0, 0, 0, 0)`
and at `base+3K+1` to `(MEM_STORE, 0, 0, 1, 200 + i·C + j)`. -/
theorem address_mapping (matrix_a matrix_b : List (List Int))
    (hv : valid_input matrix_a matrix_b)
    (hA : rows matrix_a * cols matrix_a ≤ 512)
    (hB : 100 + cols matrix_a * cols matrix_b ≤ 512)
    (hC : 200 + rows matrix_a * cols matrix_b ≤ 512)
    (i j k : Nat) (hi : i < rows matrix_a) (hj : j < cols matrix_b) (hk : k < cols matrix_a) :
    ∃ ws, compile_matrix_mult matrix_a matrix_b = Except.ok ws
      ∧ (ws[(i * cols matrix_b + j) * (3 * cols matrix_a + 2)]?).map unpack
          = some { opcode := Opcode.COMPUTE_SETUP, core_ptr := 0, rd := false, wr := false,
                   row_addr := 0 }
      ∧ (ws[(i * cols matrix_b + j) * (3 * cols matrix_a + 2) + 1 + 3 * k]?).map unpack
          = some { opcode := Opcode.MEM_LOAD, core_ptr := 0, rd := true, wr := false,
                   row_addr := i * cols matrix_a + k }
      ∧ (ws[(i * cols matrix_b + j) * (3 * cols matrix_a + 2) + 2 + 3 * k]?).map unpack
          = some { opcode := Opcode.MEM_LOAD, core_ptr := 1, rd := true, wr := false,
                   row_addr := 100 + k * cols matrix_b + j }
      ∧ (ws[(i * cols matrix_b + j) * (3 * cols matrix_a + 2) + 3 + 3 * k]?).map unpack
          = some { opcode := Opcode.COMPUTE_EXEC, core_ptr := 0, rd := false, wr := false,
                   row_addr := 0 }
      ∧ (ws[(i * cols matrix_b + j) * (3 * cols matrix_a + 2) + 3 * cols matrix_a + 1]?).map
            unpack
          = some { opcode := Opcode.MEM_STORE, core_ptr := 0, rd := false, wr := true,
                   row_addr := 200 + i * cols matrix_b + j } := by
  have bA : i * cols matrix_a + k < 512 := Nat.lt_of_lt_of_le (mul_add_lt_mul hi hk) hA
  have bB : 100 + k * cols matrix_b + j < 512 := by
    have := mul_add_lt_mul hk hj
    omega
  have bC : 200 + i * cols matrix_b + j < 512 := by
    have := mul_add_lt_mul hi hj
    omega
  have hN : rows matrix_a * cols matrix_b * (3 * cols matrix_a + 2) ≤ IR_MAX_SIZE := by
    have hK : cols matrix_a ≤ 512 :=
      Nat.le_trans (Nat.le_mul_of_pos_left _ hv.1) hA
    have hRC : rows matrix_a * cols matrix_b ≤ 312 := by omega
    have h1 : rows matrix_a * cols matrix_b * (3 * cols matrix_a + 2) ≤ 312 * (3 * 512 + 2) :=
      Nat.mul_le_mul hRC (by omega)
    exact Nat.le_trans h1 (by decide)
  refine ⟨_, compile_eq_map _ _ hv hN, ?_, ?_, ?_, ?_, ?_⟩
  · rw [List.getElem?_map, ir_spec_reset_at _ _ _ i j hi hj, Option.map_some', Option.map_some',
      unpack_encode_reset _ _ _ rfl]
  · rw [List.getElem?_map, ir_spec_triple_at _ _ _ i j k 0 hi hj hk (by omega)]
    show some (unpack (encode (IROperation.ofLoad IROpType.LOAD_A_ELEMENT i k 0) _ _)) = _
    rw [unpack_encode_load_a _ _ _ rfl]
    show some (UnpackedInstr.mk Opcode.MEM_LOAD 0 true false ((i * cols matrix_a + k) % 512)) = _
    rw [Nat.mod_eq_of_lt bA]
  · rw [List.getElem?_map, ir_spec_triple_at _ _ _ i j k 1 hi hj hk (by omega)]
    show some (unpack (encode (IROperation.ofLoad IROpType.LOAD_B_ELEMENT k j 1) _ _)) = _
    rw [unpack_encode_load_b _ _ _ rfl]
    show some (UnpackedInstr.mk Opcode.MEM_LOAD 1 true false
      ((100 + k * cols matrix_b + j) % 512)) = _
    rw [Nat.mod_eq_of_lt bB]
  · rw [List.getElem?_map, ir_spec_triple_at _ _ _ i j k 2 hi hj hk (by omega)]
    show some (unpack (encode (IROperation.ofType IROpType.EXECUTE_MAC) _ _)) = _
    rw [unpack_encode_exec _ _ _ rfl]
  · rw [List.getElem?_map, ir_spec_store_at _ _ _ i j hi hj, Option.map_some', Option.map_some',
      unpack_encode_store _ _ _ rfl]
    show some (UnpackedInstr.mk Opcode.MEM_STORE 0 false true
      ((200 + i * cols matrix_b + j) % 512)) = _
    rw [Nat.mod_eq_of_lt bC]

theorem address_mapping_witness :
    (valid_input sample_a sample_b ∧ rows sample_a * cols sample_a ≤ 512
        ∧ 100 + cols sample_a * cols sample_b ≤ 512 ∧ 200 + rows sample_a * cols sample_b ≤ 512
        ∧ 1 < rows sample_a ∧ 2 < cols sample_b ∧ 1 < cols sample_a)
      ∧ ∃ ws, compile_matrix_mult sample_a sample_b = Except.ok ws
          ∧ (ws[55]?).map unpack
              = some { opcode := Opcode.COMPUTE_SETUP, core_ptr := 0, rd := false, wr := false,
                       row_addr := 0 }
          ∧ (ws[59]?).map unpack
              = some { opcode := Opcode.MEM_LOAD, core_ptr := 0, rd := true, wr := false,
                       row_addr := 4 }
          ∧ (ws[60]?).map unpack
              = some { opcode := Opcode.MEM_LOAD, core_ptr := 1, rd := true, wr := false,
                       row_addr := 105 }
          ∧ (ws[61]?).map unpack
              = some { opcode := Opcode.COMPUTE_EXEC, core_ptr := 0, rd := false, wr := false,
                       row_addr := 0 }
          ∧ (ws[65]?).map unpack
              = some { opcode := Opcode.MEM_STORE, core_ptr := 0, rd := false, wr := true,
                       row_addr := 205 } :=
  ⟨by decide,
    address_mapping sample_a sample_b (by decide) (by decide) (by decide) (by decide) 1 2 1
      (by decide) (by decide) (by decide)⟩

/-! ## The lifecycle discipline is kept by concatenation -/

theorem resets_nil : resets [] = 0 := rfl

theorem stores_nil : stores [] = 0 := rfl

theorem resets_append (l1 l2 : List IROperation) :
    resets (l1 ++ l2) = resets l1 + resets l2 := by
  unfold resets
  rw [List.countP_append]

theorem stores_append (l1 l2 : List IROperation) :
    stores (l1 ++ l2) = stores l1 + stores l2 := by
  unfold stores
  rw [List.countP_append]

theorem Lifecycle.nil : Lifecycle [] := by
  refine ⟨rfl, fun n => ?_, fun n ir_op h => ?_, fun n ir_op h => ?_⟩
  · rw [List.take_nil]; exact ⟨Nat.le_refl _, Nat.le_succ _⟩
  · exact absurd h (by simp)
  · exact absurd h (by simp)

theorem Lifecycle.append {l1 l2 : List IROperation} (h1 : Lifecycle l1) (h2 : Lifecycle l2) :
    Lifecycle (l1 ++ l2) := by
  refine ⟨?_, ?_, ?_, ?_⟩
  · rw [resets_append, stores_append, h1.balanced, h2.balanced]
  · intro n
    rw [List.take_append_eq_append_take, resets_append, stores_append]
    have a1 := h1.within_one n
    have a2 := h2.within_one (n - l1.length)
    by_cases hn : n ≤ l1.length
    · have e : n - l1.length = 0 := by omega
      rw [e, List.take_zero, resets_nil, stores_nil]
      exact a1
    · rw [List.take_of_length_le (by omega)]
      have hb := h1.balanced
      omega
  · intro n ir_op hop hs
    rw [List.take_append_eq_append_take, resets_append, stores_append]
    by_cases hn : n < l1.length
    · rw [List.getElem?_append_left hn] at hop
      have a1 := h1.step_open n ir_op hop hs
      have e : n - l1.length = 0 := by omega
      rw [e, List.take_zero, resets_nil, stores_nil]
      omega
    · rw [List.getElem?_append_right (by omega)] at hop
      have a2 := h2.step_open _ ir_op hop hs
      rw [List.take_of_length_le (by omega)]
      have hb := h1.balanced
      omega
  · intro n ir_op hop ht
    by_cases hn : n < l1.length
    · rw [List.getElem?_append_left hn] at hop
      obtain ⟨m, hnm, hm, hbetween⟩ := h1.store_after n ir_op hop ht
      have hml : m < l1.length := by
        by_contra hc
        rw [List.getElem?_eq_none (by omega)] at hm
        exact absurd hm (by simp)
      refine ⟨m, hnm, ?_, fun t h1t h2t ir_op' hop' => ?_⟩
      · rw [List.getElem?_append_left hml]; exact hm
      · rw [List.getElem?_append_left (by omega)] at hop'
        exact hbetween t h1t h2t ir_op' hop'
    · rw [List.getElem?_append_right (by omega)] at hop
      obtain ⟨m, hnm, hm, hbetween⟩ := h2.store_after _ ir_op hop ht
      refine ⟨m + l1.length, by omega, ?_, fun t h1t h2t ir_op' hop' => ?_⟩
      · rw [List.getElem?_append_right (by omega), Nat.add_sub_cancel]; exact hm
      · rw [List.getElem?_append_right (by omega)] at hop'
        exact hbetween (t - l1.length) (by omega) (by omega) ir_op' hop'

theorem Lifecycle.flatMap {α : Type} (f : α → List IROperation) (xs : List α)
    (h : ∀ x, Lifecycle (f x)) : Lifecycle (xs.flatMap f) := by
  induction xs with
  | nil => exact Lifecycle.nil
  | cons x xs ih =>
    rw [List.flatMap_cons]
    exact Lifecycle.append (h x) ih

/-! ## The block of one output element keeps the discipline -/

theorem not_reset_of_step {ir_op : IROperation} (h : is_step ir_op) :
    ¬ ir_op.type = IROpType.RESET_ACC := by
  rcases h with h | h | h <;> rw [h] <;> decide

theorem not_store_of_step {ir_op : IROperation} (h : is_step ir_op) :
    ¬ ir_op.type = IROpType.STORE_C_ELEMENT := by
  rcases h with h | h | h <;> rw [h] <;> decide

theorem is_step_ir_inner (i j K : Nat) : ∀ ir_op ∈ ir_inner i j K, is_step ir_op := by
  intro ir_op hm
  simp only [ir_inner, ir_triple, List.mem_flatMap, List.mem_cons, List.mem_singleton,
    List.not_mem_nil, or_false] at hm
  obtain ⟨k, _, h | h | h⟩ := hm <;> subst h
  · exact Or.inl (type_ofLoad _ _ _ _)
  · exact Or.inr (Or.inl (type_ofLoad _ _ _ _))
  · exact Or.inr (Or.inr rfl)

theorem resets_eq_zero_of_steps (l : List IROperation) (h : ∀ ir_op ∈ l, is_step ir_op) :
    resets l = 0 := by
  unfold resets
  rw [List.countP_eq_zero]
  intro ir_op hm
  simpa using not_reset_of_step (h ir_op hm)

theorem stores_eq_zero_of_steps (l : List IROperation) (h : ∀ ir_op ∈ l, is_step ir_op) :
    stores l = 0 := by
  unfold stores
  rw [List.countP_eq_zero]
  intro ir_op hm
  simpa using not_store_of_step (h ir_op hm)

theorem resets_take_le (n : Nat) (l : List IROperation) : resets (l.take n) ≤ resets l :=
  List.Sublist.countP_le _ (List.take_sublist n l)

theorem stores_take_le (n : Nat) (l : List IROperation) : stores (l.take n) ≤ stores l :=
  List.Sublist.countP_le _ (List.take_sublist n l)

/-- The block after its leading reset: the steps, then the store. -/
theorem ir_block_eq_cons (i j K : Nat) :
    ir_block i j K
      = IROperation.ofIndex IROpType.RESET_ACC i j
          :: (ir_inner i j K ++ [IROperation.ofIndex IROpType.STORE_C_ELEMENT i j]) := by
  simp only [ir_block, List.singleton_append, List.cons_append, List.nil_append]

theorem resets_tail_block (i j K : Nat) :
    resets (ir_inner i j K ++ [IROperation.ofIndex IROpType.STORE_C_ELEMENT i j]) = 0 := by
  rw [resets_append, resets_eq_zero_of_steps _ (is_step_ir_inner i j K)]
  rfl

theorem stores_tail_block (i j K : Nat) :
    stores (ir_inner i j K ++ [IROperation.ofIndex IROpType.STORE_C_ELEMENT i j]) = 1 := by
  rw [stores_append, stores_eq_zero_of_steps _ (is_step_ir_inner i j K)]
  rfl

theorem resets_cons_reset (i j : Nat) (l : List IROperation) :
    resets (IROperation.ofIndex IROpType.RESET_ACC i j :: l) = resets l + 1 := by
  unfold resets
  rw [List.countP_cons_of_pos]
  exact decide_eq_true rfl

theorem stores_cons_reset (i j : Nat) (l : List IROperation) :
    stores (IROperation.ofIndex IROpType.RESET_ACC i j :: l) = stores l := by
  unfold stores
  rw [List.countP_cons_of_neg]
  rw [type_ofIndex]
  decide

theorem Lifecycle.block (i j K : Nat) : Lifecycle (ir_block i j K) := by
  have hr := resets_tail_block i j K
  have hs := stores_tail_block i j K
  refine ⟨?_, ?_, ?_, ?_⟩
  · rw [ir_block_eq_cons, resets_cons_reset, stores_cons_reset, hr, hs]
  · intro n
    rw [ir_block_eq_cons]
    cases n with
    | zero => rw [List.take_zero]; exact ⟨Nat.le_refl _, Nat.le_succ _⟩
    | succ m =>
      rw [List.take_succ_cons, resets_cons_reset, stores_cons_reset]
      have a := resets_take_le m
        (ir_inner i j K ++ [IROperation.ofIndex IROpType.STORE_C_ELEMENT i j])
      have b := stores_take_le m
        (ir_inner i j K ++ [IROperation.ofIndex IROpType.STORE_C_ELEMENT i j])
      omega
  · intro n ir_op hop hstep
    rw [ir_block_eq_cons] at hop ⊢
    cases n with
    | zero =>
      rw [List.getElem?_cons_zero] at hop
      injection hop with hop
      subst hop
      exact absurd rfl (not_reset_of_step hstep)
    | succ m =>
      rw [List.getElem?_cons_succ] at hop
      rw [List.take_succ_cons, resets_cons_reset, stores_cons_reset]
      have a := resets_take_le m
        (ir_inner i j K ++ [IROperation.ofIndex IROpType.STORE_C_ELEMENT i j])
      have hm : m < (ir_inner i j K).length := by
        by_contra hc
        rw [List.getElem?_append_right (by omega)] at hop
        have hmem := List.getElem?_mem hop
        rw [List.mem_singleton] at hmem
        subst hmem
        exact absurd rfl (not_store_of_step hstep)
      have e : List.take m (ir_inner i j K
          ++ [IROperation.ofIndex IROpType.STORE_C_ELEMENT i j])
          = List.take m (ir_inner i j K) := List.take_append_of_le_length (by omega)
      have c : stores (List.take m (ir_inner i j K)) = 0 :=
        stores_eq_zero_of_steps _
          (fun x hx => is_step_ir_inner i j K x (List.mem_of_mem_take hx))
      rw [e] at a ⊢
      rw [c]
      have d : resets (List.take m (ir_inner i j K)) = 0 :=
        resets_eq_zero_of_steps _
          (fun x hx => is_step_ir_inner i j K x (List.mem_of_mem_take hx))
      omega
  · intro n ir_op hop hreset
    cases n with
    | succ m =>
      rw [ir_block_eq_cons, List.getElem?_cons_succ] at hop
      have hmem := List.getElem?_mem hop
      rw [List.mem_append, List.mem_singleton] at hmem
      rcases hmem with hmem | hmem
      · exact absurd hreset (not_reset_of_step (is_step_ir_inner i j K ir_op hmem))
      · subst hmem
        rw [type_ofIndex] at hreset
        exact absurd hreset (by decide)
    | zero =>
      rw [getElem?_ir_block_reset] at hop
      injection hop with hop
      subst hop
      refine ⟨3 * K + 1, by omega, getElem?_ir_block_store i j K, fun t h1t h2t ir_op' hop' => ?_⟩
      obtain ⟨r, rfl⟩ : ∃ r, t = 1 + r := ⟨t - 1, by omega⟩
      rw [getElem?_ir_block_inner i j K r (by omega)] at hop'
      exact is_step_ir_inner i j K ir_op' (List.getElem?_mem hop')

theorem Lifecycle.ir_spec (R K C : Nat) : Lifecycle (ir_spec R K C) :=
  Lifecycle.flatMap _ _ (fun i => Lifecycle.flatMap _ _ (fun j => Lifecycle.block i j K))

theorem ir_spec_head (R K C : Nat) (hR : 0 < R) (hC : 0 < C) :
    (ir_spec R K C).head? = some (IROperation.ofIndex IROpType.RESET_ACC 0 0) := by
  have h := ir_spec_reset_at R K C 0 0 hR hC
  simp only [Nat.zero_mul, Nat.add_zero] at h
  rw [List.head?_eq_getElem?]
  exact h

theorem ir_spec_getLast (R K C : Nat) (hR : 0 < R) (hC : 0 < C) :
    (ir_spec R K C).getLast?
      = some (IROperation.ofIndex IROpType.STORE_C_ELEMENT (R - 1) (C - 1)) := by
  have h := ir_spec_store_at R K C (R - 1) (C - 1) (by omega) (by omega)
  rw [List.getLast?_eq_getElem?, length_ir_spec, ← h]
  congr 1
  obtain ⟨r, rfl⟩ : ∃ r, R = r + 1 := ⟨R - 1, by omega⟩
  obtain ⟨c, rfl⟩ : ∃ c, C = c + 1 := ⟨C - 1, by omega⟩
  have e : (r + 1) * (c + 1) = r * (c + 1) + c + 1 := by ring
  simp only [Nat.add_sub_cancel]
  rw [e, Nat.add_mul (r * (c + 1) + c) 1 (3 * K + 2), Nat.one_mul]
  omega

/-! ## The lifecycle law -/

/-- C10: the lifecycle law. In the IR sequence of stage 1, resets and stores
alternate: in every prefix the number of resets exceeds the number of stores
by 0 or 1; every load and every execute stands at a position where the
difference is 1; after a reset of `(i, j)` the next reset-or-store is the
store of the same `(i, j)`, so no reset or store of another output element
lies in between; the whole sequence has as many resets as stores; and when
there is at least one row and one column it starts with a reset and ends with
a store. The dimensions are arbitrary; for a valid input they are the row
count of A, the column count of A and the column count of B. -/
theorem lifecycle_law (R K C : Nat) :
    (∀ n : Nat,
        stores ((generate_ir R K C).take n) ≤ resets ((generate_ir R K C).take n)
          ∧ resets ((generate_ir R K C).take n) ≤ stores ((generate_ir R K C).take n) + 1)
      ∧ (∀ (n : Nat) (ir_op : IROperation), (generate_ir R K C)[n]? = some ir_op →
          (ir_op.type = IROpType.LOAD_A_ELEMENT ∨ ir_op.type = IROpType.LOAD_B_ELEMENT
            ∨ ir_op.type = IROpType.EXECUTE_MAC) →
          resets ((generate_ir R K C).take n) = stores ((generate_ir R K C).take n) + 1)
      ∧ (∀ (n : Nat) (ir_op : IROperation), (generate_ir R K C)[n]? = some ir_op →
          ir_op.type = IROpType.RESET_ACC →
          ∃ m : Nat, n < m
            ∧ (generate_ir R K C)[m]?
                = some (IROperation.ofIndex IROpType.STORE_C_ELEMENT ir_op.i ir_op.j)
            ∧ ∀ t : Nat, n < t → t < m → ∀ ir_op' : IROperation,
                (generate_ir R K C)[t]? = some ir_op' →
                  ir_op'.type ≠ IROpType.RESET_ACC ∧ ir_op'.type ≠ IROpType.STORE_C_ELEMENT)
      ∧ resets (generate_ir R K C) = stores (generate_ir R K C)
      ∧ (0 < R → 0 < C →
          (generate_ir R K C).head? = some (IROperation.ofIndex IROpType.RESET_ACC 0 0)
            ∧ (generate_ir R K C).getLast?
                = some (IROperation.ofIndex IROpType.STORE_C_ELEMENT (R - 1) (C - 1))) := by
  rw [generate_ir_eq_spec]
  have h := Lifecycle.ir_spec R K C
  refine ⟨h.within_one, h.step_open, fun n ir_op hop ht => ?_, h.balanced,
    fun hR hC => ⟨ir_spec_head R K C hR hC, ir_spec_getLast R K C hR hC⟩⟩
  obtain ⟨m, hnm, hm, hbetween⟩ := h.store_after n ir_op hop ht
  exact ⟨m, hnm, hm, fun t h1t h2t ir_op' hop' =>
    ⟨not_reset_of_step (hbetween t h1t h2t ir_op' hop'),
      not_store_of_step (hbetween t h1t h2t ir_op' hop')⟩⟩

/-! ## Decoded fields are always in range -/

theorem opcode_to_string_of_lt (v : Nat) (hv : v < 4) :
    (opcode_to_string ⟨v⟩ = "MEM_LOAD" ∨ opcode_to_string ⟨v⟩ = "MEM_STORE"
        ∨ opcode_to_string ⟨v⟩ = "COMPUTE_SETUP" ∨ opcode_to_string ⟨v⟩ = "COMPUTE_EXEC")
      ∧ opcode_to_string ⟨v⟩ ≠ "UNKNOWN" := by
  interval_cases v
  · exact ⟨Or.inl rfl, by decide⟩
  · exact ⟨Or.inr (Or.inl rfl), by decide⟩
  · exact ⟨Or.inr (Or.inr (Or.inl rfl)), by decide⟩
  · exact ⟨Or.inr (Or.inr (Or.inr rfl)), by decide⟩

theorem opcode_of_lt (v : Nat) (hv : v < 4) :
    (⟨v⟩ : Opcode) = Opcode.MEM_LOAD ∨ (⟨v⟩ : Opcode) = Opcode.MEM_STORE
      ∨ (⟨v⟩ : Opcode) = Opcode.COMPUTE_SETUP ∨ (⟨v⟩ : Opcode) = Opcode.COMPUTE_EXEC := by
  interval_cases v
  · exact Or.inl rfl
  · exact Or.inr (Or.inl rfl)
  · exact Or.inr (Or.inr (Or.inl rfl))
  · exact Or.inr (Or.inr (Or.inr rfl))

/-- C13: the decoded opcode is always valid. For every word `w` the opcode
returned by `unpack w` is one of `MEM_LOAD` (0), `MEM_STORE` (1),
`COMPUTE_SETUP` (2), `COMPUTE_EXEC` (3), the core pointer is below 64 and the
row address below 512, and `opcode_to_string` of that opcode is one of the
four opcode names, never `UNKNOWN`. -/
theorem decoded_opcode_valid (w : Nat) :
    ((unpack w).opcode = Opcode.MEM_LOAD ∨ (unpack w).opcode = Opcode.MEM_STORE
        ∨ (unpack w).opcode = Opcode.COMPUTE_SETUP ∨ (unpack w).opcode = Opcode.COMPUTE_EXEC)
      ∧ (unpack w).opcode.val < 4
      ∧ (unpack w).core_ptr < 64
      ∧ (unpack w).row_addr < 512
      ∧ (opcode_to_string (unpack w).opcode = "MEM_LOAD"
          ∨ opcode_to_string (unpack w).opcode = "MEM_STORE"
          ∨ opcode_to_string (unpack w).opcode = "COMPUTE_SETUP"
          ∨ opcode_to_string (unpack w).opcode = "COMPUTE_EXEC")
      ∧ opcode_to_string (unpack w).opcode ≠ "UNKNOWN" := by
  rw [unpack_eq]
  have hv : w / 2 ^ 17 % 4 < 4 := Nat.mod_lt _ (by norm_num)
  have hs := opcode_to_string_of_lt _ hv
  refine ⟨opcode_of_lt _ hv, hv, ?_, ?_, hs.1, hs.2⟩
  · exact Nat.mod_lt _ (by norm_num)
  · exact Nat.mod_lt _ (by norm_num)

/-! ## The concrete scenario -/

/-- C14: the concrete scenario. For `A = [[1,2],[3,4]]` and `B = [[5,6],[7,8]]`
the IR of stage 1 has 32 entries and begins with the reset of `(0, 0)`, the
load of `A[0][0]` into buffer 0, the load of `B[0][0]` into buffer 1 and the
multiply-accumulate; `compile_matrix_mult` returns the 32 words listed, the
first of which decodes to `(COMPUTE_SETUP, 0, 0, 0, 0)` and the second to
`(MEM_LOAD, 0, 1, 0, 0)`. -/
theorem concrete_scenario :
    (generate_ir (rows scenario_a) (cols scenario_a) (cols scenario_b)).length = 32
      ∧ (generate_ir (rows scenario_a) (cols scenario_a) (cols scenario_b)).take 4
          = [IROperation.ofIndex IROpType.RESET_ACC 0 0,
             IROperation.ofLoad IROpType.LOAD_A_ELEMENT 0 0 0,
             IROperation.ofLoad IROpType.LOAD_B_ELEMENT 0 0 1,
             IROperation.ofType IROpType.EXECUTE_MAC]
      ∧ compile_matrix_mult scenario_a scenario_b
          = Except.ok
              [262144, 1024, 3172, 393216, 1025, 3174, 393216, 131784,
               262144, 1024, 3173, 393216, 1025, 3175, 393216, 131785,
               262144, 1026, 3172, 393216, 1027, 3174, 393216, 131786,
               262144, 1026, 3173, 393216, 1027, 3175, 393216, 131787]
      ∧ (∃ ws, compile_matrix_mult scenario_a scenario_b = Except.ok ws
          ∧ ws.length = 32
          ∧ (ws[0]?).map unpack
              = some { opcode := Opcode.COMPUTE_SETUP, core_ptr := 0, rd := false, wr := false,
                       row_addr := 0 }
          ∧ (ws[1]?).map unpack
              = some { opcode := Opcode.MEM_LOAD, core_ptr := 0, rd := true, wr := false,
                       row_addr := 0 }) := by
  refine ⟨by decide, by decide, rfl, _, rfl, rfl, rfl, rfl⟩

/-! ## The encoder is an element-wise map -/

theorem translate_nil (rows_a cols_a cols_b : Nat) :
    translate_ir_to_pim [] rows_a cols_a cols_b = [] := rfl

theorem translate_eq_flatMap (ir_code : List IROperation) (rows_a cols_a cols_b : Nat) :
    translate_ir_to_pim ir_code rows_a cols_a cols_b
      = ir_code.flatMap (fun ir_op => translate_ir_to_pim [ir_op] rows_a cols_a cols_b) := by
  induction ir_code with
  | nil => rfl
  | cons x xs ih =>
    rw [List.flatMap_cons, ← ih]
    simp only [translate_eq_filterMap, List.filterMap_cons, List.filterMap_nil]
    cases translate_op x cols_a cols_b <;> rfl

/-- C12: the encoder preserves length and order. For every IR sequence made of
the five recognised kinds and all dimensions, `translate_ir_to_pim` returns a
sequence of the same length whose `n`-th word is the word emitted for the
`n`-th operation alone; the result is the concatenation of the one-word
results of the operations, in order, and the empty IR sequence gives the empty
instruction sequence. -/
theorem encoder_preserves_order (ir_code : List IROperation) (rows_a cols_a cols_b : Nat)
    (h : ∀ ir_op ∈ ir_code, recognized ir_op) :
    (translate_ir_to_pim ir_code rows_a cols_a cols_b).length = ir_code.length
      ∧ (∀ (n : Nat) (ir_op : IROperation), ir_code[n]? = some ir_op →
          ∃ w, translate_ir_to_pim [ir_op] rows_a cols_a cols_b = [w]
            ∧ (translate_ir_to_pim ir_code rows_a cols_a cols_b)[n]? = some w)
      ∧ translate_ir_to_pim ir_code rows_a cols_a cols_b
          = ir_code.flatMap (fun ir_op => translate_ir_to_pim [ir_op] rows_a cols_a cols_b)
      ∧ translate_ir_to_pim [] rows_a cols_a cols_b = [] := by
  have hmap := translate_eq_map ir_code rows_a cols_a cols_b h
  refine ⟨by rw [hmap, List.length_map], fun n ir_op hn => ?_,
    translate_eq_flatMap ir_code rows_a cols_a cols_b, rfl⟩
  refine ⟨encode ir_op cols_a cols_b, ?_, ?_⟩
  · exact translate_singleton _ _ _ _ _
      (translate_op_of_recognized ir_op cols_a cols_b (h ir_op (List.getElem?_mem hn)))
  · rw [hmap, List.getElem?_map, hn]
    rfl

theorem encoder_preserves_order_witness :
    (∀ ir_op ∈ [IROperation.ofType IROpType.EXECUTE_MAC,
          IROperation.ofIndex IROpType.STORE_C_ELEMENT 1 2,
          IROperation.ofLoad IROpType.LOAD_A_ELEMENT 3 4 5], recognized ir_op)
      ∧ (translate_ir_to_pim [IROperation.ofType IROpType.EXECUTE_MAC,
            IROperation.ofIndex IROpType.STORE_C_ELEMENT 1 2,
            IROperation.ofLoad IROpType.LOAD_A_ELEMENT 3 4 5] 7 8 9).length = 3 :=
  ⟨by decide,
    (encoder_preserves_order [IROperation.ofType IROpType.EXECUTE_MAC,
      IROperation.ofIndex IROpType.STORE_C_ELEMENT 1 2,
      IROperation.ofLoad IROpType.LOAD_A_ELEMENT 3 4 5] 7 8 9 (by decide)).1⟩

/-! ## Only the shapes matter -/

/-- C17: the output depends only on the shapes. When A and A' have the same
number of rows and first rows of the same length, and likewise B and B',
`compile_matrix_mult` returns the same result on `(A, B)` and on `(A', B')`:
the same error or the identical instruction sequence. The values of the
elements and the lengths of the rows after the first have no influence. -/
theorem output_depends_on_shape (matrix_a matrix_b matrix_a' matrix_b' : List (List Int))
    (hra : rows matrix_a = rows matrix_a') (hca : cols matrix_a = cols matrix_a')
    (hrb : rows matrix_b = rows matrix_b') (hcb : cols matrix_b = cols matrix_b') :
    compile_matrix_mult matrix_a matrix_b = compile_matrix_mult matrix_a' matrix_b' := by
  by_cases he : rows matrix_a = 0 ∨ rows matrix_b = 0 ∨ cols matrix_a = 0 ∨ cols matrix_b = 0
  · have he' : rows matrix_a' = 0 ∨ rows matrix_b' = 0 ∨ cols matrix_a' = 0
        ∨ cols matrix_b' = 0 := by
      rw [← hra, ← hca, ← hrb, ← hcb]; exact he
    rw [compile_of_empty _ _ he, compile_of_empty _ _ he']
  · have he' : ¬ (rows matrix_a' = 0 ∨ rows matrix_b' = 0 ∨ cols matrix_a' = 0
        ∨ cols matrix_b' = 0) := by
      rw [← hra, ← hca, ← hrb, ← hcb]; exact he
    by_cases hm : cols matrix_a = rows matrix_b
    · have hv : valid_input matrix_a matrix_b := by
        unfold valid_input; omega
      have hv' : valid_input matrix_a' matrix_b' := by
        unfold valid_input; omega
      by_cases hN : rows matrix_a * cols matrix_b * (3 * cols matrix_a + 2) ≤ IR_MAX_SIZE
      · have hN' : rows matrix_a' * cols matrix_b' * (3 * cols matrix_a' + 2)
            ≤ IR_MAX_SIZE := by
          rw [← hra, ← hca, ← hcb]; exact hN
        rw [compile_of_valid _ _ hv hN, compile_of_valid _ _ hv' hN', hra, hca, hcb]
      · have hN' : IR_MAX_SIZE
            < rows matrix_a' * cols matrix_b' * (3 * cols matrix_a' + 2) := by
          rw [← hra, ← hca, ← hcb]; omega
        rw [compile_of_too_large _ _ hv (by omega), compile_of_too_large _ _ hv' hN']
    · have hm' : cols matrix_a' ≠ rows matrix_b' := by
        rw [← hca, ← hrb]; exact hm
      rw [compile_of_mismatch _ _ he hm, compile_of_mismatch _ _ he' hm']

theorem output_depends_on_shape_witness :
    (rows [[1, 2], [3, 4]] = rows [[9, 9], [7]] ∧ cols [[1, 2], [3, 4]] = cols [[9, 9], [7]]
        ∧ rows [[5, 6], [7, 8]] = rows [[0, -1], [2, 2, 2]]
        ∧ cols [[5, 6], [7, 8]] = cols [[0, -1], [2, 2, 2]])
      ∧ compile_matrix_mult [[1, 2], [3, 4]] [[5, 6], [7, 8]]
          = compile_matrix_mult [[9, 9], [7]] [[0, -1], [2, 2, 2]] :=
  ⟨by decide,
    output_depends_on_shape [[1, 2], [3, 4]] [[5, 6], [7, 8]] [[9, 9], [7]] [[0, -1], [2, 2, 2]]
      (by decide) (by decide) (by decide) (by decide)⟩

/-! ## Flags and opcode of the emitted words -/

theorem flag_opcode_of_translate_op (ir_op : IROperation) (cols_a cols_b w : Nat)
    (h : translate_op ir_op cols_a cols_b = some w) :
    ((unpack w).rd = true ↔ (unpack w).opcode = Opcode.MEM_LOAD)
      ∧ ((unpack w).wr = true ↔ (unpack w).opcode = Opcode.MEM_STORE)
      ∧ ¬ ((unpack w).rd = true ∧ (unpack w).wr = true)
      ∧ ((unpack w).opcode = Opcode.COMPUTE_SETUP ∨ (unpack w).opcode = Opcode.COMPUTE_EXEC →
          (unpack w).core_ptr = 0 ∧ (unpack w).row_addr = 0 ∧ (w = 0x40000 ∨ w = 0x60000)) := by
  unfold translate_op at h
  split_ifs at h <;> injection h with h <;> subst h <;> rw [unpack_pack_masked]
    <;> refine ⟨?_, ?_, ?_, ?_⟩ <;> dsimp only
    <;> first
      | decide
      | (intro hc; rcases hc with hc | hc <;> exact absurd hc (by decide))

/-- C18: the flag/opcode invariant. Every word `w` emitted by
`translate_ir_to_pim`, for every IR sequence and all dimensions, decodes to
fields where the read flag is set exactly when the opcode is `MEM_LOAD`, the
write flag is set exactly when the opcode is `MEM_STORE`, the two flags are
never both set, and when the opcode is `COMPUTE_SETUP` or `COMPUTE_EXEC` the
core pointer and the row address are 0, the word being `0x40000` or `0x60000`. -/
theorem flag_opcode_invariant (ir_code : List IROperation) (rows_a cols_a cols_b : Nat) :
    ∀ w ∈ translate_ir_to_pim ir_code rows_a cols_a cols_b,
      ((unpack w).rd = true ↔ (unpack w).opcode = Opcode.MEM_LOAD)
        ∧ ((unpack w).wr = true ↔ (unpack w).opcode = Opcode.MEM_STORE)
        ∧ ¬ ((unpack w).rd = true ∧ (unpack w).wr = true)
        ∧ ((unpack w).opcode = Opcode.COMPUTE_SETUP ∨ (unpack w).opcode = Opcode.COMPUTE_EXEC →
            (unpack w).core_ptr = 0 ∧ (unpack w).row_addr = 0
              ∧ (w = 0x40000 ∨ w = 0x60000)) := by
  intro w hw
  rw [translate_eq_filterMap, List.mem_filterMap] at hw
  obtain ⟨ir_op, _, hop⟩ := hw
  exact flag_opcode_of_translate_op ir_op cols_a cols_b w hop

theorem flag_opcode_invariant_witness :
    131795 ∈ translate_ir_to_pim [IROperation.ofIndex IROpType.STORE_C_ELEMENT 1 2] 7 8 9
      ∧ (((unpack 131795).rd = true ↔ (unpack 131795).opcode = Opcode.MEM_LOAD)
        ∧ ((unpack 131795).wr = true ↔ (unpack 131795).opcode = Opcode.MEM_STORE)
        ∧ ¬ ((unpack 131795).rd = true ∧ (unpack 131795).wr = true)
        ∧ ((unpack 131795).opcode = Opcode.COMPUTE_SETUP
              ∨ (unpack 131795).opcode = Opcode.COMPUTE_EXEC →
            (unpack 131795).core_ptr = 0 ∧ (unpack 131795).row_addr = 0
              ∧ (131795 = 0x40000 ∨ 131795 = 0x60000))) :=
  ⟨by decide,
    flag_opcode_invariant [IROperation.ofIndex IROpType.STORE_C_ELEMENT 1 2] 7 8 9 131795
      (by decide)⟩

/-! ## Addresses -/

theorem address_of_load_a (i k buf cols_a cols_b : Nat) :
    address_of (IROperation.ofLoad IROpType.LOAD_A_ELEMENT i k buf) cols_a cols_b
      = some ((i * cols_a + k) % 512) := by
  unfold address_of
  rw [translate_op_load_a _ _ _ rfl, Option.map_some', unpack_pack_masked, addr_mod,
    MATRIX_A_BASE, Nat.zero_add]
  rfl

theorem address_of_load_b (k j buf cols_a cols_b : Nat) :
    address_of (IROperation.ofLoad IROpType.LOAD_B_ELEMENT k j buf) cols_a cols_b
      = some ((100 + k * cols_b + j) % 512) := by
  unfold address_of
  rw [translate_op_load_b _ _ _ rfl, Option.map_some', unpack_pack_masked, addr_mod,
    MATRIX_B_BASE]
  rfl

theorem address_of_store (i j cols_a cols_b : Nat) :
    address_of (IROperation.ofIndex IROpType.STORE_C_ELEMENT i j) cols_a cols_b
      = some ((200 + i * cols_b + j) % 512) := by
  unfold address_of
  rw [translate_op_store _ _ _ rfl, Option.map_some', unpack_pack_masked, addr_mod,
    MATRIX_C_BASE]
  rfl

/-- A row-major offset determines its row and its column. -/
theorem offset_inj {L i r i' r' : Nat} (hr : r < L) (hr' : r' < L)
    (h : i * L + r = i' * L + r') : i = i' ∧ r = r' := by
  have hi : i = i' := by
    rcases Nat.lt_trichotomy i i' with hlt | heq | hgt
    · have := mul_add_lt_mul hlt hr
      omega
    · exact heq
    · have := mul_add_lt_mul hgt hr'
      omega
  subst hi
  exact ⟨rfl, by omega⟩

/-- C15: address injectivity within the region sizes. When `R·K ≤ 100`,
`K·C ≤ 100` and `R·C ≤ 312` (as for the 10×10 sample input), the addresses the
encoder assigns to in-range elements are `i·K + k` for `A[i][k]`,
`100 + k·C + j` for `B[k][j]` and `200 + i·C + j` for `C[i][j]`; they lie in
`[0, 100)`, `[100, 200)` and `[200, 512)`; two different elements of the same
matrix get different addresses, and so do elements of two different matrices. -/
theorem address_injectivity (R K C : Nat) (hA : R * K ≤ 100) (hB : K * C ≤ 100)
    (hC : R * C ≤ 312) :
    (∀ i k : Nat, i < R → k < K →
        address_of (IROperation.ofLoad IROpType.LOAD_A_ELEMENT i k 0) K C = some (i * K + k)
          ∧ i * K + k < 100)
      ∧ (∀ k j : Nat, k < K → j < C →
          address_of (IROperation.ofLoad IROpType.LOAD_B_ELEMENT k j 1) K C
              = some (100 + k * C + j)
            ∧ 100 ≤ 100 + k * C + j ∧ 100 + k * C + j < 200)
      ∧ (∀ i j : Nat, i < R → j < C →
          address_of (IROperation.ofIndex IROpType.STORE_C_ELEMENT i j) K C
              = some (200 + i * C + j)
            ∧ 200 ≤ 200 + i * C + j ∧ 200 + i * C + j < 512)
      ∧ (∀ i k i' k' : Nat, i < R → k < K → i' < R → k' < K →
          address_of (IROperation.ofLoad IROpType.LOAD_A_ELEMENT i k 0) K C
            = address_of (IROperation.ofLoad IROpType.LOAD_A_ELEMENT i' k' 0) K C →
          i = i' ∧ k = k')
      ∧ (∀ k j k' j' : Nat, k < K → j < C → k' < K → j' < C →
          address_of (IROperation.ofLoad IROpType.LOAD_B_ELEMENT k j 1) K C
            = address_of (IROperation.ofLoad IROpType.LOAD_B_ELEMENT k' j' 1) K C →
          k = k' ∧ j = j')
      ∧ (∀ i j i' j' : Nat, i < R → j < C → i' < R → j' < C →
          address_of (IROperation.ofIndex IROpType.STORE_C_ELEMENT i j) K C
            = address_of (IROperation.ofIndex IROpType.STORE_C_ELEMENT i' j') K C →
          i = i' ∧ j = j')
      ∧ (∀ i k k' j : Nat, i < R → k < K → k' < K → j < C →
          address_of (IROperation.ofLoad IROpType.LOAD_A_ELEMENT i k 0) K C
            ≠ address_of (IROperation.ofLoad IROpType.LOAD_B_ELEMENT k' j 1) K C)
      ∧ (∀ i k i' j : Nat, i < R → k < K → i' < R → j < C →
          address_of (IROperation.ofLoad IROpType.LOAD_A_ELEMENT i k 0) K C
            ≠ address_of (IROperation.ofIndex IROpType.STORE_C_ELEMENT i' j) K C)
      ∧ (∀ k j i j' : Nat, k < K → j < C → i < R → j' < C →
          address_of (IROperation.ofLoad IROpType.LOAD_B_ELEMENT k j 1) K C
            ≠ address_of (IROperation.ofIndex IROpType.STORE_C_ELEMENT i j') K C) := by
  have bA : ∀ i k : Nat, i < R → k < K → i * K + k < 100 := fun i k hi hk =>
    Nat.lt_of_lt_of_le (mul_add_lt_mul hi hk) hA
  have bB : ∀ k j : Nat, k < K → j < C → k * C + j < 100 := fun k j hk hj =>
    Nat.lt_of_lt_of_le (mul_add_lt_mul hk hj) hB
  have bC : ∀ i j : Nat, i < R → j < C → i * C + j < 312 := fun i j hi hj =>
    Nat.lt_of_lt_of_le (mul_add_lt_mul hi hj) hC
  have eA : ∀ i k : Nat, i < R → k < K →
      address_of (IROperation.ofLoad IROpType.LOAD_A_ELEMENT i k 0) K C = some (i * K + k) := by
    intro i k hi hk
    rw [address_of_load_a, Nat.mod_eq_of_lt (by have := bA i k hi hk; omega)]
  have eB : ∀ k j : Nat, k < K → j < C →
      address_of (IROperation.ofLoad IROpType.LOAD_B_ELEMENT k j 1) K C
        = some (100 + k * C + j) := by
    intro k j hk hj
    rw [address_of_load_b, Nat.mod_eq_of_lt (by have := bB k j hk hj; omega)]
  have eC : ∀ i j : Nat, i < R → j < C →
      address_of (IROperation.ofIndex IROpType.STORE_C_ELEMENT i j) K C
        = some (200 + i * C + j) := by
    intro i j hi hj
    rw [address_of_store, Nat.mod_eq_of_lt (by have := bC i j hi hj; omega)]
  refine ⟨fun i k hi hk => ⟨eA i k hi hk, bA i k hi hk⟩,
    fun k j hk hj => ⟨eB k j hk hj, by omega, by have := bB k j hk hj; omega⟩,
    fun i j hi hj => ⟨eC i j hi hj, by omega, by have := bC i j hi hj; omega⟩,
    ?_, ?_, ?_, ?_, ?_, ?_⟩
  · intro i k i' k' hi hk hi' hk' h
    rw [eA i k hi hk, eA i' k' hi' hk'] at h
    exact offset_inj hk hk' (Option.some.inj h)
  · intro k j k' j' hk hj hk' hj' h
    rw [eB k j hk hj, eB k' j' hk' hj'] at h
    exact offset_inj hj hj' (by have := Option.some.inj h; omega)
  · intro i j i' j' hi hj hi' hj' h
    rw [eC i j hi hj, eC i' j' hi' hj'] at h
    exact offset_inj hj hj' (by have := Option.some.inj h; omega)
  · intro i k k' j hi hk hk' hj h
    rw [eA i k hi hk, eB k' j hk' hj] at h
    have := Option.some.inj h
    have := bA i k hi hk
    omega
  · intro i k i' j hi hk hi' hj h
    rw [eA i k hi hk, eC i' j hi' hj] at h
    have := Option.some.inj h
    have := bA i k hi hk
    omega
  · intro k j i j' hk hj hi hj' h
    rw [eB k j hk hj, eC i j' hi hj'] at h
    have := Option.some.inj h
    have := bB k j hk hj
    omega

theorem address_injectivity_witness :
    (rows sample10_a * cols sample10_a ≤ 100 ∧ cols sample10_a * cols sample10_b ≤ 100
        ∧ rows sample10_a * cols sample10_b ≤ 312)
      ∧ (∀ i k : Nat, i < rows sample10_a → k < cols sample10_a →
          address_of (IROperation.ofLoad IROpType.LOAD_A_ELEMENT i k 0) (cols sample10_a)
              (cols sample10_b) = some (i * cols sample10_a + k)
            ∧ i * cols sample10_a + k < 100) :=
  ⟨by decide,
    (address_injectivity (rows sample10_a) (cols sample10_a) (cols sample10_b) (by decide)
      (by decide) (by decide)).1⟩

/-! ## Overlap of the regions of A and B -/

/-- C16, as amended: region overlap beyond 100 elements. For every valid input
with `R·K > 100` whose IR fits a vector, `R·C·(3K+2) ≤ max_size()`, and every
free store that supplies the two vectors, `44·R·C·(3K+2)` bytes,
`compile_matrix_mult` succeeds and its output holds the load of the element of
A at linear offset 100 (row `100 / K`, column `100 mod K`) and the load of
`B[0][0]`, at the positions of these two operations in the IR, and both words
carry row address 100. Nothing requires an address of 512 or more: the 101×1
by 1×1 input shows it. -/
theorem region_overlap (heap : Nat) (matrix_a matrix_b : List (List Int))
    (hv : valid_input matrix_a matrix_b) (h : 100 < rows matrix_a * cols matrix_a)
    (hN : rows matrix_a * cols matrix_b * (3 * cols matrix_a + 2) ≤ IR_MAX_SIZE)
    (hheap : (IR_BYTES + WORD_BYTES) * (rows matrix_a * cols matrix_b * (3 * cols matrix_a + 2))
      ≤ heap) :
    ∃ ws, compile_matrix_mult_on heap matrix_a matrix_b = Except.ok ws
      ∧ (generate_ir (rows matrix_a) (cols matrix_a) (cols matrix_b))[
            (100 / cols matrix_a * cols matrix_b + 0) * (3 * cols matrix_a + 2) + 1
              + 3 * (100 % cols matrix_a)]?
          = some (IROperation.ofLoad IROpType.LOAD_A_ELEMENT (100 / cols matrix_a)
              (100 % cols matrix_a) 0)
      ∧ (ws[(100 / cols matrix_a * cols matrix_b + 0) * (3 * cols matrix_a + 2) + 1
              + 3 * (100 % cols matrix_a)]?).map unpack
          = some { opcode := Opcode.MEM_LOAD, core_ptr := 0, rd := true, wr := false,
                   row_addr := 100 }
      ∧ (generate_ir (rows matrix_a) (cols matrix_a) (cols matrix_b))[2]?
          = some (IROperation.ofLoad IROpType.LOAD_B_ELEMENT 0 0 1)
      ∧ (ws[2]?).map unpack
          = some { opcode := Opcode.MEM_LOAD, core_ptr := 1, rd := true, wr := false,
                   row_addr := 100 } := by
  have hR : 0 < rows matrix_a := hv.1
  have hK : 0 < cols matrix_a := hv.2.2.1
  have hC : 0 < cols matrix_b := hv.2.2.2.1
  have hi : 100 / cols matrix_a < rows matrix_a := (Nat.div_lt_iff_lt_mul hK).mpr h
  have hk : 100 % cols matrix_a < cols matrix_a := Nat.mod_lt _ hK
  have hoff : 100 / cols matrix_a * cols matrix_a + 100 % cols matrix_a = 100 := by
    rw [Nat.mul_comm]; exact Nat.div_add_mod 100 (cols matrix_a)
  have ha := ir_spec_triple_at (rows matrix_a) (cols matrix_a) (cols matrix_b)
    (100 / cols matrix_a) 0 (100 % cols matrix_a) 0 hi hC hk (by omega)
  have hb := ir_spec_triple_at (rows matrix_a) (cols matrix_a) (cols matrix_b) 0 0 0 1 hR hC hK
    (by omega)
  simp only [Nat.zero_mul, Nat.mul_zero, Nat.add_zero, Nat.zero_add] at ha hb
  refine ⟨_, compile_on_eq_map heap _ _ hv hN hheap, ?_, ?_, ?_, ?_⟩
  · rw [generate_ir_eq_spec]
    simp only [Nat.add_zero]
    exact ha
  · simp only [Nat.add_zero]
    rw [List.getElem?_map, ha]
    show some (unpack (encode (IROperation.ofLoad IROpType.LOAD_A_ELEMENT _ _ 0) _ _)) = _
    rw [unpack_encode_load_a _ _ _ rfl]
    show some (UnpackedInstr.mk Opcode.MEM_LOAD 0 true false
      ((100 / cols matrix_a * cols matrix_a + 100 % cols matrix_a) % 512)) = _
    rw [hoff]
  · rw [generate_ir_eq_spec]
    exact hb
  · rw [List.getElem?_map, hb]
    show some (unpack (encode (IROperation.ofLoad IROpType.LOAD_B_ELEMENT 0 0 1) _ _)) = _
    rw [unpack_encode_load_b _ _ _ rfl]
    show some (UnpackedInstr.mk Opcode.MEM_LOAD 1 true false
      ((100 + 0 * cols matrix_b + 0) % 512)) = _
    rw [Nat.zero_mul]

/-- The claim C16 as first stated fails on the ragged 10^6 × 10^6 input: it is
valid and has `R·K > 100`, yet `compile_matrix_mult` does not succeed, whatever
the free store. -/
theorem region_overlap_counterexample :
    (valid_input ragged_huge ragged_huge ∧ 100 < rows ragged_huge * cols ragged_huge)
      ∧ ∀ heap : Nat,
          ¬ ∃ ws, compile_matrix_mult_on heap ragged_huge ragged_huge = Except.ok ws := by
  refine ⟨⟨valid_ragged_huge, ?_⟩, fun heap => ?_⟩
  · rw [rows_ragged_huge, cols_ragged_huge]
    decide
  · rintro ⟨ws, hws⟩
    rw [compile_on_ragged_huge] at hws
    exact absurd hws (by simp)

theorem region_overlap_witness :
    (valid_input tall_a tall_b ∧ 100 < rows tall_a * cols tall_a
        ∧ rows tall_a * cols tall_b * (3 * cols tall_a + 2) ≤ IR_MAX_SIZE
        ∧ (IR_BYTES + WORD_BYTES) * (rows tall_a * cols tall_b * (3 * cols tall_a + 2))
            ≤ 65536)
      ∧ ∃ ws, compile_matrix_mult_on 65536 tall_a tall_b = Except.ok ws
          ∧ (generate_ir (rows tall_a) (cols tall_a) (cols tall_b))[
                (100 / cols tall_a * cols tall_b + 0) * (3 * cols tall_a + 2) + 1
                  + 3 * (100 % cols tall_a)]?
              = some (IROperation.ofLoad IROpType.LOAD_A_ELEMENT (100 / cols tall_a)
                  (100 % cols tall_a) 0)
          ∧ (ws[(100 / cols tall_a * cols tall_b + 0) * (3 * cols tall_a + 2) + 1
                  + 3 * (100 % cols tall_a)]?).map unpack
              = some { opcode := Opcode.MEM_LOAD, core_ptr := 0, rd := true, wr := false,
                       row_addr := 100 }
          ∧ (generate_ir (rows tall_a) (cols tall_a) (cols tall_b))[2]?
              = some (IROperation.ofLoad IROpType.LOAD_B_ELEMENT 0 0 1)
          ∧ (ws[2]?).map unpack
              = some { opcode := Opcode.MEM_LOAD, core_ptr := 1, rd := true, wr := false,
                       row_addr := 100 } :=
  ⟨by decide,
    region_overlap 65536 tall_a tall_b (by decide) (by decide) (by decide) (by decide)⟩

/-! ## Counting in a concatenation of blocks -/

theorem countP_flatMap_const {α β : Type} (p : β → Bool) (f : α → List β) (c : Nat)
    (l : List α) (h : ∀ x ∈ l, List.countP p (f x) = c) :
    List.countP p (l.flatMap f) = l.length * c := by
  induction l with
  | nil => simp
  | cons x xs ih =>
    rw [List.flatMap_cons, List.countP_append, h x (List.mem_cons_self x xs),
      ih (fun y hy => h y (List.mem_cons_of_mem x hy)), List.length_cons, Nat.succ_mul,
      Nat.add_comm]

theorem countP_flatMap_range_const {β : Type} (p : β → Bool) (f : Nat → List β) (c n : Nat)
    (h : ∀ x, x < n → List.countP p (f x) = c) :
    List.countP p ((List.range n).flatMap f) = n * c := by
  rw [countP_flatMap_const p f c (List.range n) (fun x hx => h x (List.mem_range.mp hx)),
    List.length_range]

/-- When only block `i` holds matching entries, the concatenation holds as
many as block `i`. -/
theorem countP_flatMap_range_single {β : Type} (p : β → Bool) (f : Nat → List β)
    (n i c : Nat) (hi : i < n) (h1 : List.countP p (f i) = c)
    (h0 : ∀ x, x ≠ i → List.countP p (f x) = 0) :
    List.countP p ((List.range n).flatMap f) = c := by
  induction n with
  | zero => omega
  | succ n ih =>
    rw [List.range_succ, List.flatMap_append, List.countP_append, List.flatMap_singleton]
    rcases Nat.lt_succ_iff_lt_or_eq.mp hi with h | h
    · rw [ih h, h0 n (by omega), Nat.add_zero]
    · subst h
      rw [countP_flatMap_range_const p f 0 i (fun x hx => h0 x (by omega)), h1]
      omega

/-! ## Counts in the block of one output element -/

theorem resets_ir_block (i j K : Nat) : resets (ir_block i j K) = 1 := by
  rw [ir_block_eq_cons, resets_cons_reset, resets_tail_block]

theorem stores_ir_block (i j K : Nat) : stores (ir_block i j K) = 1 := by
  rw [ir_block_eq_cons, stores_cons_reset, stores_tail_block]

theorem countP_type_cons (t : IROpType) (x : IROperation) (l : List IROperation) :
    List.countP (fun ir_op => decide (ir_op.type = t)) (x :: l)
      = List.countP (fun ir_op => decide (ir_op.type = t)) l + (if x.type = t then 1 else 0) := by
  rw [List.countP_cons]
  simp only [decide_eq_true_eq]

theorem loads_a_ir_triple (i j k : Nat) : loads_a (ir_triple i j k) = 1 := by
  unfold loads_a ir_triple
  simp only [countP_type_cons, type_ofLoad, type_ofType, List.countP_nil]
  rfl

theorem loads_b_ir_triple (i j k : Nat) : loads_b (ir_triple i j k) = 1 := by
  unfold loads_b ir_triple
  simp only [countP_type_cons, type_ofLoad, type_ofType, List.countP_nil]
  rfl

theorem executes_ir_triple (i j k : Nat) : executes (ir_triple i j k) = 1 := by
  unfold executes ir_triple
  simp only [countP_type_cons, type_ofLoad, type_ofType, List.countP_nil]
  rfl

theorem loads_a_ir_block (i j K : Nat) : loads_a (ir_block i j K) = K := by
  have hin : loads_a (ir_inner i j K) = K * 1 :=
    countP_flatMap_range_const _ _ 1 K (fun k _ => loads_a_ir_triple i j k)
  unfold loads_a at hin ⊢
  rw [ir_block, List.countP_append, List.countP_append, hin]
  simp only [countP_type_cons, type_ofIndex, List.countP_nil]
  show 0 + 0 + K * 1 + (0 + 0) = K
  omega

theorem loads_b_ir_block (i j K : Nat) : loads_b (ir_block i j K) = K := by
  have hin : loads_b (ir_inner i j K) = K * 1 :=
    countP_flatMap_range_const _ _ 1 K (fun k _ => loads_b_ir_triple i j k)
  unfold loads_b at hin ⊢
  rw [ir_block, List.countP_append, List.countP_append, hin]
  simp only [countP_type_cons, type_ofIndex, List.countP_nil]
  show 0 + 0 + K * 1 + (0 + 0) = K
  omega

theorem executes_ir_block (i j K : Nat) : executes (ir_block i j K) = K := by
  have hin : executes (ir_inner i j K) = K * 1 :=
    countP_flatMap_range_const _ _ 1 K (fun k _ => executes_ir_triple i j k)
  unfold executes at hin ⊢
  rw [ir_block, List.countP_append, List.countP_append, hin]
  simp only [countP_type_cons, type_ofIndex, List.countP_nil]
  show 0 + 0 + K * 1 + (0 + 0) = K
  omega

theorem resets_at_le (i j : Nat) (l : List IROperation) : resets_at i j l ≤ resets l := by
  unfold resets_at resets
  apply List.countP_mono_left
  intro x _ hx
  simp only [decide_eq_true_eq] at hx ⊢
  exact hx.1

theorem stores_at_le (i j : Nat) (l : List IROperation) : stores_at i j l ≤ stores l := by
  unfold stores_at stores
  apply List.countP_mono_left
  intro x _ hx
  simp only [decide_eq_true_eq] at hx ⊢
  exact hx.1

theorem resets_at_ir_block (i j i' j' K : Nat) :
    resets_at i j (ir_block i' j' K) = if i' = i ∧ j' = j then 1 else 0 := by
  have hz : resets_at i j
      (ir_inner i' j' K ++ [IROperation.ofIndex IROpType.STORE_C_ELEMENT i' j']) = 0 := by
    have := resets_at_le i j
      (ir_inner i' j' K ++ [IROperation.ofIndex IROpType.STORE_C_ELEMENT i' j'])
    rw [resets_tail_block] at this
    omega
  unfold resets_at at hz ⊢
  rw [ir_block_eq_cons, List.countP_cons, hz, Nat.zero_add]
  by_cases h : i' = i ∧ j' = j
  · rw [if_pos h, if_pos (decide_eq_true ⟨rfl, h.1, h.2⟩)]
  · rw [if_neg h, if_neg]
    intro hc
    exact h (of_decide_eq_true hc).2

theorem stores_head_block (i j K : Nat) :
    stores ([IROperation.ofIndex IROpType.RESET_ACC i j] ++ ir_inner i j K) = 0 := by
  rw [List.singleton_append, stores_cons_reset,
    stores_eq_zero_of_steps _ (is_step_ir_inner i j K)]

theorem stores_at_ir_block (i j i' j' K : Nat) :
    stores_at i j (ir_block i' j' K) = if i' = i ∧ j' = j then 1 else 0 := by
  have hz : stores_at i j
      ([IROperation.ofIndex IROpType.RESET_ACC i' j'] ++ ir_inner i' j' K) = 0 := by
    have := stores_at_le i j ([IROperation.ofIndex IROpType.RESET_ACC i' j'] ++ ir_inner i' j' K)
    rw [stores_head_block] at this
    omega
  unfold stores_at at hz ⊢
  rw [ir_block, List.countP_append, hz, Nat.zero_add, List.countP_singleton]
  by_cases h : i' = i ∧ j' = j
  · rw [if_pos h, if_pos (decide_eq_true ⟨rfl, h.1, h.2⟩)]
  · rw [if_neg h, if_neg]
    intro hc
    exact h (of_decide_eq_true hc).2

/-- A count that is `c` in every block is `R·C·c` in the whole sequence. -/
theorem countP_ir_spec_const (p : IROperation → Bool) (c R K C : Nat)
    (h : ∀ i j, List.countP p (ir_block i j K) = c) :
    List.countP p (ir_spec R K C) = R * C * c := by
  unfold ir_spec
  rw [countP_flatMap_range_const p _ (C * c) R
    (fun i _ => countP_flatMap_range_const p _ c C (fun j _ => h i j)), Nat.mul_assoc]

/-- A count that is 1 in the block of `(i, j)` and 0 in the others is 1 in the
whole sequence. -/
theorem countP_ir_spec_single (p : IROperation → Bool) (R K C i j : Nat) (hi : i < R)
    (hj : j < C)
    (h : ∀ i' j', List.countP p (ir_block i' j' K) = if i' = i ∧ j' = j then 1 else 0) :
    List.countP p (ir_spec R K C) = 1 := by
  unfold ir_spec
  apply countP_flatMap_range_single p _ R i 1 hi
  · apply countP_flatMap_range_single p _ C j 1 hj
    · rw [h i j, if_pos ⟨rfl, rfl⟩]
    · intro x hx
      rw [h i x, if_neg (fun hc => hx hc.2)]
  · intro x hx
    rw [countP_flatMap_range_const p _ 0 C
      (fun y _ => by rw [h x y, if_neg (fun hc => hx hc.1)]), Nat.mul_zero]

theorem index_lt_of_mem_ir_spec (R K C : Nat) (ir_op : IROperation)
    (hm : ir_op ∈ ir_spec R K C)
    (ht : ir_op.type = IROpType.RESET_ACC ∨ ir_op.type = IROpType.STORE_C_ELEMENT) :
    ir_op.i < R ∧ ir_op.j < C := by
  simp only [ir_spec, List.mem_flatMap, List.mem_range] at hm
  obtain ⟨i, hi, j, hj, hb⟩ := hm
  simp only [ir_block, List.mem_append, List.mem_singleton] at hb
  rcases hb with (hb | hb) | hb
  · subst hb; exact ⟨hi, hj⟩
  · have hs := is_step_ir_inner i j K ir_op hb
    rcases ht with ht | ht
    · exact absurd ht (not_reset_of_step hs)
    · exact absurd ht (not_store_of_step hs)
  · subst hb; exact ⟨hi, hj⟩

/-! ## Per-element counts -/

/-- C11: per-element counts. In the IR sequence of stage 1, for every `(i, j)`
with `i < R` and `j < C` there is exactly one reset of `(i, j)` and exactly one
store of `(i, j)`; every reset and every store has its indices inside
`[0, R) × [0, C)`; and the sequence holds `R·C` resets, `R·C` stores, `R·C·K`
loads of A, `R·C·K` loads of B and `R·C·K` executes. -/
theorem per_element_counts (R K C : Nat) :
    (∀ i j : Nat, i < R → j < C →
        resets_at i j (generate_ir R K C) = 1 ∧ stores_at i j (generate_ir R K C) = 1)
      ∧ (∀ ir_op ∈ generate_ir R K C,
          (ir_op.type = IROpType.RESET_ACC ∨ ir_op.type = IROpType.STORE_C_ELEMENT) →
            ir_op.i < R ∧ ir_op.j < C)
      ∧ resets (generate_ir R K C) = R * C
      ∧ stores (generate_ir R K C) = R * C
      ∧ loads_a (generate_ir R K C) = R * C * K
      ∧ loads_b (generate_ir R K C) = R * C * K
      ∧ executes (generate_ir R K C) = R * C * K := by
  rw [generate_ir_eq_spec]
  refine ⟨fun i j hi hj => ⟨?_, ?_⟩, fun ir_op hm ht => index_lt_of_mem_ir_spec R K C ir_op hm ht,
    ?_, ?_, ?_, ?_, ?_⟩
  · exact countP_ir_spec_single _ R K C i j hi hj (fun i' j' => resets_at_ir_block i j i' j' K)
  · exact countP_ir_spec_single _ R K C i j hi hj (fun i' j' => stores_at_ir_block i j i' j' K)
  · have := countP_ir_spec_const _ 1 R K C (fun i j => resets_ir_block i j K)
    rw [Nat.mul_one] at this
    exact this
  · have := countP_ir_spec_const _ 1 R K C (fun i j => stores_ir_block i j K)
    rw [Nat.mul_one] at this
    exact this
  · exact countP_ir_spec_const _ K R K C (fun i j => loads_a_ir_block i j K)
  · exact countP_ir_spec_const _ K R K C (fun i j => loads_b_ir_block i j K)
  · exact countP_ir_spec_const _ K R K C (fun i j => executes_ir_block i j K)

/-! ## The store words in emission order -/

theorem map_filter_eq_filterMap_ite {α β : Type} (p : α → Bool) (g : α → β) (l : List α) :
    (l.filter p).map g = l.filterMap (fun x => if p x then some (g x) else none) := by
  induction l with
  | nil => rfl
  | cons x xs ih =>
    by_cases hx : p x = true
    · rw [List.filter_cons_of_pos hx, List.map_cons, ih,
        List.filterMap_cons_some (by rw [if_pos hx])]
    · rw [List.filter_cons_of_neg hx, ih, List.filterMap_cons_none (by rw [if_neg hx])]

theorem store_addrs_eq_filterMap (ws : List Nat) :
    store_addrs ws = ws.filterMap store_addr_opt :=
  map_filter_eq_filterMap_ite is_store_word _ ws

theorem store_addr_opt_encode_store (ir_op : IROperation) (cols_a cols_b : Nat)
    (h : ir_op.type = IROpType.STORE_C_ELEMENT) :
    store_addr_opt (encode ir_op cols_a cols_b)
      = some ((200 + ir_op.i * cols_b + ir_op.j) % 512) := by
  unfold store_addr_opt is_store_word
  rw [unpack_encode_store _ _ _ h]
  rfl

theorem store_addr_opt_encode_reset (ir_op : IROperation) (cols_a cols_b : Nat)
    (h : ir_op.type = IROpType.RESET_ACC) :
    store_addr_opt (encode ir_op cols_a cols_b) = none := by
  unfold store_addr_opt is_store_word
  rw [unpack_encode_reset _ _ _ h]
  rfl

theorem store_addr_opt_encode_step (ir_op : IROperation) (cols_a cols_b : Nat)
    (h : is_step ir_op) :
    store_addr_opt (encode ir_op cols_a cols_b) = none := by
  unfold store_addr_opt is_store_word
  rcases h with h | h | h
  · rw [unpack_encode_load_a _ _ _ h]; rfl
  · rw [unpack_encode_load_b _ _ _ h]; rfl
  · rw [unpack_encode_exec _ _ _ h]; rfl

/-- The block of `(i, j)` yields one store word, with the address of `C[i][j]`. -/
theorem store_addrs_ir_block (i j K C : Nat) :
    (ir_block i j K).filterMap (fun ir_op => store_addr_opt (encode ir_op K C))
      = [(200 + (i * C + j)) % 512] := by
  have hin : (ir_inner i j K).filterMap (fun ir_op => store_addr_opt (encode ir_op K C))
      = [] :=
    List.filterMap_eq_nil_iff.mpr
      (fun a ha => store_addr_opt_encode_step a K C (is_step_ir_inner i j K a ha))
  have h1 : [IROperation.ofIndex IROpType.RESET_ACC i j].filterMap
      (fun ir_op => store_addr_opt (encode ir_op K C)) = [] :=
    List.filterMap_eq_nil_iff.mpr (fun a ha => by
      rw [List.mem_singleton] at ha
      subst ha
      exact store_addr_opt_encode_reset _ K C rfl)
  have h2 : [IROperation.ofIndex IROpType.STORE_C_ELEMENT i j].filterMap
      (fun ir_op => store_addr_opt (encode ir_op K C)) = [(200 + i * C + j) % 512] := by
    rw [List.filterMap_cons, List.filterMap_nil]
    simp only [store_addr_opt_encode_store _ K C (type_ofIndex _ i j)]
    rfl
  rw [ir_block, List.filterMap_append, List.filterMap_append, hin, h1, h2,
    List.nil_append, List.nil_append, Nat.add_assoc]

theorem flatMap_singleton_eq_map {α β : Type} (g : α → β) (l : List α) :
    l.flatMap (fun x => [g x]) = l.map g := by
  induction l with
  | nil => rfl
  | cons x xs ih => rw [List.flatMap_cons, ih, List.map_cons, List.singleton_append]

/-- Visiting `(i, j)` row by row visits the offsets `i·C + j` in increasing order. -/
theorem flatMap_row_major {β : Type} (g : Nat → β) (R C : Nat) :
    (List.range R).flatMap (fun i => (List.range C).flatMap (fun j => [g (i * C + j)]))
      = (List.range (R * C)).map g := by
  induction R with
  | zero => simp
  | succ R ih =>
    rw [List.range_succ, List.flatMap_append, ih, List.flatMap_singleton, Nat.succ_mul,
      List.range_add, List.map_append, List.map_map, flatMap_singleton_eq_map]
    rfl

theorem store_addrs_ir_spec (R K C : Nat) :
    store_addrs ((ir_spec R K C).map (fun ir_op => encode ir_op K C))
      = (List.range (R * C)).map (fun n => (200 + n) % 512) := by
  rw [store_addrs_eq_filterMap, List.filterMap_map, ir_spec, List.filterMap_flatMap]
  simp only [List.filterMap_flatMap, Function.comp_def, store_addrs_ir_block]
  exact flatMap_row_major (fun n => (200 + n) % 512) R C

/-- C19, as amended: results are stored in row-major order. For every valid
input whose IR fits a vector, `R·C·(3K+2) ≤ max_size()`, and every free store
that supplies the two vectors, `44·R·C·(3K+2)` bytes, the output of
`compile_matrix_mult` holds exactly `R·C` words that decode to `MEM_STORE`, and
the `n`-th of them in emission order has row address `(200 + n) mod 512`; when
`200 + R·C ≤ 512` the store addresses are `200, 201, ..., 200 + R·C - 1`, in
strictly increasing order. -/
theorem stores_row_major (heap : Nat) (matrix_a matrix_b : List (List Int))
    (hv : valid_input matrix_a matrix_b)
    (hN : rows matrix_a * cols matrix_b * (3 * cols matrix_a + 2) ≤ IR_MAX_SIZE)
    (hheap : (IR_BYTES + WORD_BYTES) * (rows matrix_a * cols matrix_b * (3 * cols matrix_a + 2))
      ≤ heap) :
    ∃ ws, compile_matrix_mult_on heap matrix_a matrix_b = Except.ok ws
      ∧ (ws.filter is_store_word).length = rows matrix_a * cols matrix_b
      ∧ (∀ n : Nat, n < rows matrix_a * cols matrix_b →
          ((ws.filter is_store_word)[n]?).map (fun w => (unpack w).row_addr)
            = some ((200 + n) % 512))
      ∧ store_addrs ws
          = (List.range (rows matrix_a * cols matrix_b)).map (fun n => (200 + n) % 512)
      ∧ (200 + rows matrix_a * cols matrix_b ≤ 512 →
          store_addrs ws = (List.range (rows matrix_a * cols matrix_b)).map (fun n => 200 + n)
            ∧ List.Pairwise (fun a b => a < b) (store_addrs ws)) := by
  have hs := store_addrs_ir_spec (rows matrix_a) (cols matrix_a) (cols matrix_b)
  refine ⟨_, compile_on_eq_map heap _ _ hv hN hheap, ?_, fun n hn => ?_, hs, fun hle => ?_⟩
  · have hl := congrArg List.length hs
    rw [store_addrs, List.length_map, List.length_map, List.length_range] at hl
    exact hl
  · have hn' := congrArg (fun l => l[n]?) hs
    simp only [store_addrs, List.getElem?_map, List.getElem?_range hn, Option.map_some'] at hn'
    exact hn'
  · have hmap : (List.range (rows matrix_a * cols matrix_b)).map (fun n => (200 + n) % 512)
        = (List.range (rows matrix_a * cols matrix_b)).map (fun n => 200 + n) := by
      apply List.map_congr_left
      intro n hn
      have := List.mem_range.mp hn
      exact Nat.mod_eq_of_lt (by omega)
    rw [hs, hmap]
    refine ⟨rfl, ?_⟩
    exact List.Pairwise.map (fun n => 200 + n)
      (fun a b hab => Nat.add_lt_add_left hab 200) (List.pairwise_lt_range _)

/-- The claim C19 as first stated fails on the ragged 10^6 × 10^6 input: it is
valid, yet whatever the free store `compile_matrix_mult` ends in
`std::length_error` and there is no output to hold `R·C` store words. -/
theorem stores_row_major_counterexample :
    valid_input ragged_huge ragged_huge
      ∧ ∀ heap : Nat,
          compile_matrix_mult_on heap ragged_huge ragged_huge
              = Except.error CompileError.length_error
            ∧ ¬ ∃ ws, compile_matrix_mult_on heap ragged_huge ragged_huge = Except.ok ws
                ∧ (ws.filter is_store_word).length
                    = rows ragged_huge * cols ragged_huge := by
  refine ⟨valid_ragged_huge, fun heap => ⟨compile_on_ragged_huge heap, ?_⟩⟩
  rintro ⟨ws, hws, _⟩
  rw [compile_on_ragged_huge] at hws
  exact absurd hws (by simp)

theorem stores_row_major_witness :
    (valid_input scenario_a scenario_b
        ∧ rows scenario_a * cols scenario_b * (3 * cols scenario_a + 2) ≤ IR_MAX_SIZE
        ∧ (IR_BYTES + WORD_BYTES)
            * (rows scenario_a * cols scenario_b * (3 * cols scenario_a + 2)) ≤ 4096)
      ∧ ∃ ws, compile_matrix_mult_on 4096 scenario_a scenario_b = Except.ok ws
          ∧ (ws.filter is_store_word).length = rows scenario_a * cols scenario_b
          ∧ (∀ n : Nat, n < rows scenario_a * cols scenario_b →
              ((ws.filter is_store_word)[n]?).map (fun w => (unpack w).row_addr)
                = some ((200 + n) % 512))
          ∧ store_addrs ws
              = (List.range (rows scenario_a * cols scenario_b)).map (fun n => (200 + n) % 512)
          ∧ (200 + rows scenario_a * cols scenario_b ≤ 512 →
              store_addrs ws
                  = (List.range (rows scenario_a * cols scenario_b)).map (fun n => 200 + n)
                ∧ List.Pairwise (fun a b => a < b) (store_addrs ws)) :=
  ⟨by decide, stores_row_major 4096 scenario_a scenario_b (by decide) (by decide) (by decide)⟩

end pim
